import Mathlib

/-!
# Verification of the price/lead-time benchmarking data pipeline

A shallow embedding of the deterministic core of the repository
(`src/services/dataService.ts`, the combination enumeration of `src/App.tsx`,
and the precondition logic of `getForecastFromAI` in the AI service layer),
together with proofs settling the specification claims.

Modelling conventions:
* JavaScript strings are modelled as `List Char`.
* JavaScript numbers are modelled by `JSNum`: either a rational value or `nan`
  (the `NaN` produced by `parseFloat`/`parseInt` on non-numeric text).
  Infinities do not arise on the modelled code paths and are not represented.
* `Array.prototype.sort` with the comparator `(a, b) => a - b` is, per the
  ECMAScript specification, a stable sort consistent with the numeric order;
  it is modelled by a stable insertion sort (`sortAsc` / `sortByKey`).
* Nondeterministic inputs (the `new Date()` fallback for a missing date field)
  are passed in explicitly as a `now` parameter, as an injected clock.
* `crypto.randomUUID()` ids are not modelled: parsed records carry no id field,
  and no claim depends on ids.
-/

/-- A JavaScript string, as a list of characters. -/
abbrev JStr := List Char

/-- A JavaScript number restricted to the values arising in this code base:
either an exact rational or `NaN`. -/
inductive JSNum where
  | nan : JSNum
  | num (q : ℚ) : JSNum
  deriving DecidableEq, Repr

namespace JSNum

/-- JavaScript `+` on numbers (`NaN` absorbs). -/
def add : JSNum → JSNum → JSNum
  | num a, num b => num (a + b)
  | _, _ => nan

/-- JavaScript `-` on numbers (`NaN` absorbs). -/
def sub : JSNum → JSNum → JSNum
  | num a, num b => num (a - b)
  | _, _ => nan

/-- JavaScript `/` on numbers. `NaN` absorbs.  A zero divisor yields `NaN`
(in JavaScript it yields `±Infinity`, or `NaN` for `0/0`; no modelled code
path divides by zero, and infinities are collapsed into `nan` here). -/
def div : JSNum → JSNum → JSNum
  | num a, num b => if b = 0 then nan else num (a / b)
  | _, _ => nan

/-- JavaScript `<` on numbers: false whenever either side is `NaN`. -/
def ltb : JSNum → JSNum → Bool
  | num a, num b => decide (a < b)
  | _, _ => false

/-- JavaScript `>` on numbers: false whenever either side is `NaN`. -/
def gtb : JSNum → JSNum → Bool
  | num a, num b => decide (b < a)
  | _, _ => false

/-- Sum of a list of numbers, as `reduce((a, b) => a + b, 0)`. -/
def sumList (l : List JSNum) : JSNum := l.foldl add (num 0)

end JSNum

/-! ## JavaScript string primitives -/

/-- The whitespace characters recognised by `String.prototype.trim` and by the
leading-whitespace skip of `parseFloat`/`parseInt` (the ASCII part of the
ECMAScript white-space/line-terminator classes, plus NBSP and the BOM; other
Unicode space characters do not occur in the modelled inputs). -/
def jsIsWhitespace (c : Char) : Bool :=
  c = ' ' || c = '\t' || c = '\n' || c = '\r' ||
  c = Char.ofNat 11 || c = Char.ofNat 12 || c = Char.ofNat 160 || c = Char.ofNat 65279

/-- `String.prototype.trim`: drop leading and trailing whitespace. -/
def jsTrim (s : JStr) : JStr :=
  ((s.dropWhile jsIsWhitespace).reverse.dropWhile jsIsWhitespace).reverse

/-- `v.replace(/^"|"$/g, '')`: remove one leading and one trailing double
quote, if present. -/
def stripQuotes (s : JStr) : JStr :=
  let s1 := if s.head? = some '"' then s.tail else s
  if s1.getLast? = some '"' then s1.dropLast else s1

/-- `String.prototype.split` with a single-character separator.  Like the
JavaScript original, splitting the empty string yields `[""]`, and `n + 1`
pieces result from `n` separators. -/
def splitOnChar (c : Char) : JStr → List JStr
  | [] => [[]]
  | a :: rest =>
      let r := splitOnChar c rest
      if a = c then
        [] :: r
      else
        match r with
        | [] => [[a]]
        | h :: t => (a :: h) :: t

/-- `String.prototype.toLowerCase`, for the ASCII inputs of this code base. -/
def jsToLower (s : JStr) : JStr := s.map Char.toLower

/-- `h.replace(/[()]/g, '')`: drop every parenthesis. -/
def stripParens (s : JStr) : JStr := s.filter (fun c => !(c = '(' || c = ')'))

/-! ## `parseFloat` and `parseInt` -/

/-- Numeric value of a list of decimal digit characters. -/
def digitsToNat (ds : JStr) : Nat :=
  ds.foldl (fun acc c => acc * 10 + (c.toNat - 48)) 0

/-- Numeric value of a list of hexadecimal digit characters. -/
def hexDigitsToNat (ds : JStr) : Nat :=
  ds.foldl (fun acc c =>
    acc * 16 +
      (if c.isDigit then c.toNat - 48
       else if 'a' ≤ c ∧ c ≤ 'f' then c.toNat - 87
       else c.toNat - 55)) 0

/-- Leading sign, returning the sign factor and the rest of the string. -/
def takeSign : JStr → ℚ × JStr
  | '+' :: rest => (1, rest)
  | '-' :: rest => (-1, rest)
  | s => (1, s)

/-- The optional exponent part of a decimal literal (`e`/`E`, optional sign,
at least one digit).  Returns the exponent, or 0 when no well-formed exponent
follows (in which case `parseFloat` stops before the `e`). -/
def parseExponent (s : JStr) : ℤ :=
  match s with
  | 'e' :: rest | 'E' :: rest =>
      let (sgn, rest') := takeSign rest
      let ds := rest'.takeWhile Char.isDigit
      if ds = [] then 0 else (sgn * digitsToNat ds : ℚ).num
  | _ => 0

/-- `parseFloat`: skip leading whitespace, read an optional sign, then the
longest prefix of the form `digits [. digits] [exponent]` or `. digits
[exponent]`; `NaN` when no digit is found.  (The `Infinity` literal, which
never occurs in the modelled data, is not recognised.) -/
def jsParseFloat (s : JStr) : JSNum :=
  let s0 := s.dropWhile jsIsWhitespace
  let (sgn, s1) := takeSign s0
  let intDs := s1.takeWhile Char.isDigit
  let s2 := s1.drop intDs.length
  let fracDs := match s2 with
    | '.' :: rest => rest.takeWhile Char.isDigit
    | _ => []
  if intDs = [] ∧ fracDs = [] then JSNum.nan
  else
    let s3 := match s2 with
      | '.' :: rest => rest.drop fracDs.length
      | _ => s2
    let e := parseExponent s3
    let mant : ℚ := (digitsToNat intDs : ℚ) + (digitsToNat fracDs : ℚ) / 10 ^ fracDs.length
    JSNum.num (sgn * mant * (10 : ℚ) ^ e)

/-- `parseInt` with no radix argument: skip leading whitespace, read an
optional sign, then either a `0x`/`0X`-prefixed hexadecimal digit run or a
decimal digit run; `NaN` when no digit is found. -/
def jsParseInt (s : JStr) : JSNum :=
  let s0 := s.dropWhile jsIsWhitespace
  let (sgn, s1) := takeSign s0
  match s1 with
  | '0' :: 'x' :: rest | '0' :: 'X' :: rest =>
      let ds := rest.takeWhile (fun c => c.isDigit || ('a' ≤ c ∧ c ≤ 'f') || ('A' ≤ c ∧ c ≤ 'F'))
      if ds = [] then JSNum.nan else JSNum.num (sgn * hexDigitsToNat ds)
  | _ =>
      let ds := s1.takeWhile Char.isDigit
      if ds = [] then JSNum.nan else JSNum.num (sgn * digitsToNat ds)

/-! ## Number printing (JavaScript number-to-string on the modelled values) -/

/-- Fuel-bounded iteration for `factorCount` (structural recursion so that
concrete instances evaluate inside the kernel). -/
def factorCountAux : Nat → Nat → Nat → Nat
  | 0, _, _ => 0
  | fuel + 1, p, n =>
      if 2 ≤ p ∧ 0 < n ∧ n % p = 0 then factorCountAux fuel p (n / p) + 1 else 0

/-- Multiplicity of a factor `p ≥ 2` in `n` (0 for `n = 0`); `n` itself
bounds the number of division steps. -/
def factorCount (p n : Nat) : Nat := factorCountAux n p n

/-- The number of decimal digits needed after the point to write `q` exactly:
the larger of the multiplicities of 2 and 5 in the denominator.  Meaningful
when the denominator has no other prime factor (i.e. `q` is a finite
decimal, which is the case for every value JavaScript prints in plain
decimal notation). -/
def decExp (q : ℚ) : Nat := max (factorCount 2 q.den) (factorCount 5 q.den)

/-- The decimal digit character for `d < 10`. -/
def digitChar (d : Nat) : Char := Char.ofNat (48 + d)

/-- Decimal digits of `n`, most significant first (`"0"` for 0), as printed
by JavaScript for a whole number. -/
def natToChars (n : Nat) : JStr :=
  if n = 0 then ['0'] else ((Nat.digits 10 n).map digitChar).reverse

/-- The string `m / 10^k` written in plain decimal notation with exactly `k`
digits after the point (no point when `k = 0`). -/
def decChars (m k : Nat) : JStr :=
  if k = 0 then natToChars m
  else natToChars (m / 10 ^ k) ++ '.' :: (List.replicate (k - (natToChars (m % 10 ^ k)).length) '0' ++ natToChars (m % 10 ^ k))

/-- JavaScript number-to-string conversion, for the finite-decimal values in
the normal magnitude range that occur in this code base (JavaScript switches
to exponent notation only below `1e-6` or at `1e21` and above). -/
def ratToChars (q : ℚ) : JStr :=
  let k := decExp q
  let m := (q * 10 ^ k).num.natAbs
  if q < 0 then '-' :: decChars m k else decChars m k

/-! ## Data model (`src/types.ts`) -/

/-- `HistoricalData` from `src/types.ts`.  Numeric fields hold the rational
values of the data model (uploads can in principle produce `NaN` fields, but
every claim about `cleanseOutliers` and the combination enumeration ranges
over data-model records; the optional `isOutlier` flag is never read by the
modelled code and is omitted). -/
structure HistoricalData where
  id : JStr
  partNumber : JStr
  country : JStr
  usdPrice : ℚ
  quantity : ℚ
  leadTimeDays : ℚ
  vendor : JStr
  date : JStr
  deriving DecidableEq, Repr

/-- `FilterState` from `src/types.ts`. -/
structure FilterState where
  partNumber : JStr
  vendor : JStr
  country : JStr
  deriving DecidableEq, Repr

/-! ## Stable ascending sort

`values.sort((a, b) => a - b)` and `.sort((a, b) => getTime(a) - getTime(b))`
are stable sorts consistent with the numeric comparator (ECMAScript
`Array.prototype.sort` is required to be stable and consistent); both are
modelled by a stable insertion sort keyed by a rational. -/

/-- Insert `x` into `l` before the first element with a strictly larger key
(after all elements with the same key, hence stable). -/
def insertByKey (key : α → ℚ) (x : α) : List α → List α
  | [] => [x]
  | y :: ys => if key x < key y then x :: y :: ys else y :: insertByKey key x ys

/-- Stable ascending sort by a rational key. -/
def sortByKey (key : α → ℚ) : List α → List α
  | [] => []
  | x :: xs => insertByKey key x (sortByKey key xs)

/-- Ascending sort of a list of rationals (`.sort((a, b) => a - b)`). -/
def sortAsc : List ℚ → List ℚ := sortByKey id

/-! ## `cleanseOutliers` (`src/services/dataService.ts`, lines 4–16) -/

/-- The result record of `cleanseOutliers`. -/
structure CleanseResult where
  cleansed : List HistoricalData
  outlierCount : Nat
  deriving DecidableEq, Repr

/-- `cleanseOutliers`: the IQR outlier filter of `dataService.ts`.
`values[Math.floor(values.length / 4)]` and
`values[Math.floor(values.length * (3 / 4))]` are in range whenever
`data.length ≥ 4`; out-of-range indexing (which cannot occur) defaults to 0. -/
def cleanseOutliers (data : List HistoricalData) : CleanseResult :=
  if data.length < 4 then { cleansed := data, outlierCount := 0 }
  else
    let values := sortAsc (data.map (·.usdPrice))
    let q1 := values.getD (values.length / 4) 0
    let q3 := values.getD (values.length * 3 / 4) 0
    let iqr := q3 - q1
    let minBound := q1 - 1.5 * iqr
    let maxBound := q3 + 1.5 * iqr
    let cleansed := data.filter (fun d => decide (minBound ≤ d.usdPrice) && decide (d.usdPrice ≤ maxBound))
    { cleansed := cleansed, outlierCount := data.length - cleansed.length }

/-- The reference IQR filter, written from the specification's words
(§4.1): fewer than 4 records are returned unchanged; otherwise the usdPrice
values are sorted ascending, Q1 is the element at index `⌊n/4⌋`, Q3 the
element at index `⌊n·3/4⌋`, and exactly the records whose usdPrice lies in
the closed band `[Q1 − 1.5·IQR, Q3 + 1.5·IQR]` are kept in order. -/
def cleanseOutliersSpec (data : List HistoricalData) : CleanseResult :=
  if data.length < 4 then { cleansed := data, outlierCount := 0 }
  else
    let values := List.insertionSort (· ≤ ·) (data.map (·.usdPrice))
    let n := values.length
    let q1 := values.getD (n / 4) 0
    let q3 := values.getD (n * 3 / 4) 0
    let iqr := q3 - q1
    let kept := data.filter (fun d => decide (q1 - 1.5 * iqr ≤ d.usdPrice ∧ d.usdPrice ≤ q3 + 1.5 * iqr))
    { cleansed := kept, outlierCount := data.length - kept.length }

theorem insertByKey_perm (key : α → ℚ) (x : α) (l : List α) :
    (insertByKey key x l).Perm (x :: l) := by
  induction l with
  | nil => simp [insertByKey]
  | cons y ys ih =>
      simp only [insertByKey]
      split
      · exact List.Perm.refl _
      · exact ((ih.cons y).trans (List.Perm.swap x y ys))

theorem sortByKey_perm (key : α → ℚ) (l : List α) : (sortByKey key l).Perm l := by
  induction l with
  | nil => simp [sortByKey]
  | cons x xs ih => exact (insertByKey_perm key x _).trans (ih.cons x)

theorem sortByKey_length (key : α → ℚ) (l : List α) :
    (sortByKey key l).length = l.length :=
  (sortByKey_perm key l).length_eq

theorem insertByKey_sorted (key : α → ℚ) (x : α) (l : List α)
    (h : l.Sorted (fun a b => key a ≤ key b)) :
    (insertByKey key x l).Sorted (fun a b => key a ≤ key b) := by
  induction l with
  | nil => simp [insertByKey]
  | cons y ys ih =>
      simp only [insertByKey]
      split
      · rename_i hlt
        refine List.sorted_cons.2 ⟨?_, h⟩
        intro b hb
        rcases List.mem_cons.1 hb with hb' | hb'
        · subst hb'; exact le_of_lt hlt
        · exact le_trans (le_of_lt hlt) ((List.sorted_cons.1 h).1 b hb')
      · rename_i hge
        have hys := (List.sorted_cons.1 h).2
        refine List.sorted_cons.2 ⟨?_, ih hys⟩
        intro b hb
        have hmem := (insertByKey_perm key x ys).mem_iff.1 hb
        rcases List.mem_cons.1 hmem with hb' | hb'
        · subst hb'; exact le_of_not_lt hge
        · exact (List.sorted_cons.1 h).1 b hb'

theorem sortByKey_sorted (key : α → ℚ) (l : List α) :
    (sortByKey key l).Sorted (fun a b => key a ≤ key b) := by
  induction l with
  | nil => simp [sortByKey]
  | cons x xs ih => exact insertByKey_sorted key x _ ih

/-- On rational values the stable comparator sort agrees with Mathlib's
insertion sort: both are sorted rearrangements, and a sorted rearrangement of
a list of values is unique. -/
theorem sortAsc_eq_insertionSort (l : List ℚ) :
    sortAsc l = List.insertionSort (· ≤ ·) l := by
  refine List.eq_of_perm_of_sorted ((sortByKey_perm id l).trans (List.perm_insertionSort _ l).symm) ?_ (List.sorted_insertionSort _ l)
  simpa using sortByKey_sorted id l

/-- C1: `cleanseOutliers` computes exactly the reference IQR filter described
by the specification: the sub-4 no-op, population-index quartiles over the
ascending price series, the closed acceptance band
`[Q1 − 1.5·IQR, Q3 + 1.5·IQR]`, order-preserving keep, and
`removedCount = input length − kept length`. -/
theorem decide_and_split (p q : Prop) [Decidable p] [Decidable q] :
    (decide p && decide q) = decide (p ∧ q) := by
  simp

theorem cleanseOutliers_eq_spec (data : List HistoricalData) :
    cleanseOutliers data = cleanseOutliersSpec data := by
  unfold cleanseOutliers cleanseOutliersSpec
  split
  · rfl
  · rw [sortAsc_eq_insertionSort]
    simp only [decide_and_split]

/-- A record list of the given price, with all other fields blank; prices are
the only field the outlier filter reads. -/
def priceRec (price : ℚ) : HistoricalData :=
  { id := [], partNumber := [], country := [], usdPrice := price,
    quantity := 0, leadTimeDays := 0, vendor := [], date := [] }

theorem cleanseOutliers_cleansed_sublist (data : List HistoricalData) :
    (cleanseOutliers data).cleansed.Sublist data := by
  unfold cleanseOutliers
  split
  · exact List.Sublist.refl data
  · exact List.filter_sublist data

theorem cleanseOutliers_count_eq (data : List HistoricalData) :
    (cleanseOutliers data).outlierCount
      = data.length - (cleanseOutliers data).cleansed.length := by
  unfold cleanseOutliers
  split
  · simp
  · rfl

theorem cleanseOutliers_cleansed_of_count_zero (data : List HistoricalData)
    (h : (cleanseOutliers data).outlierCount = 0) :
    (cleanseOutliers data).cleansed = data := by
  have hsub := cleanseOutliers_cleansed_sublist data
  have hcount := cleanseOutliers_count_eq data
  have hle := hsub.length_le
  exact hsub.eq_of_length (by omega)

/-- Counterexample to C6: on eight records with prices
`[0,0,0,0,0,1,3,100]` the first pass removes the 100 (band `[-4.5, 7.5]`
from Q1 = 0, Q3 = 3), after which the quartiles of the seven survivors give
the tighter band `[-1.5, 2.5]` and the second pass removes the price-3
record: `cleanseOutliers` applied to already-cleansed data removes one more
record instead of returning it unchanged with removedCount 0. -/
theorem cleanseOutliers_not_idempotent :
    (cleanseOutliers (cleanseOutliers ([0, 0, 0, 0, 0, 1, 3, 100].map priceRec)).cleansed).outlierCount = 1 ∧
    (cleanseOutliers (cleanseOutliers ([0, 0, 0, 0, 0, 1, 3, 100].map priceRec)).cleansed).cleansed
      ≠ (cleanseOutliers ([0, 0, 0, 0, 0, 1, 3, 100].map priceRec)).cleansed := by
  with_unfolding_all decide

/-- C6 (amended): a second application of `cleanseOutliers` to the cleansed
output of a first application returns a sublist of that output (it never
adds or reorders records) with removedCount equal to the difference in
lengths, but it may remove further records, so idempotence fails in
general; it does hold whenever the first application removed nothing. -/
theorem cleanseOutliers_second_pass (data : List HistoricalData) :
    ((cleanseOutliers (cleanseOutliers data).cleansed).cleansed).Sublist
        (cleanseOutliers data).cleansed
    ∧ (cleanseOutliers (cleanseOutliers data).cleansed).outlierCount
        = (cleanseOutliers data).cleansed.length
          - (cleanseOutliers (cleanseOutliers data).cleansed).cleansed.length
    ∧ ((cleanseOutliers data).outlierCount = 0 →
        cleanseOutliers (cleanseOutliers data).cleansed = cleanseOutliers data) := by
  refine ⟨cleanseOutliers_cleansed_sublist _, cleanseOutliers_count_eq _, ?_⟩
  intro h
  rw [cleanseOutliers_cleansed_of_count_zero data h]

/-- Witness for `cleanseOutliers_second_pass` at a concrete outlier-free
input: the first pass keeps all four records, and the second application
coincides with the first. -/
theorem cleanseOutliers_second_pass_witness :
    cleanseOutliers (cleanseOutliers ([10, 11, 12, 13].map priceRec)).cleansed
      = cleanseOutliers ([10, 11, 12, 13].map priceRec) :=
  (cleanseOutliers_second_pass ([10, 11, 12, 13].map priceRec)).2.2 (by with_unfolding_all decide)

/-! ## Record codec (`src/services/dataService.ts`)

Rows are mapped to field dictionaries exactly as in the source: the header
tokens are positionally assigned the row's cleaned cells (later duplicate
headers overwrite earlier ones), a missing cell is `undefined` (`none`), and
`a || b` falls through on `undefined` and on the empty string. -/

/-- `obj[key]` for the dictionary built by
`headers.forEach((header, i) => obj[header] = values[i])`. -/
def rowObj (headers cells : List JStr) (key : JStr) : Option JStr :=
  (headers.enum.reverse.find? (fun p => p.2 = key)).bind (fun p => cells.get? p.1)

/-- JavaScript `a || b` on string-or-undefined values: `b` when `a` is
`undefined` or the empty string. -/
def jsOrStr (a b : Option JStr) : Option JStr :=
  match a with
  | some s => if s = [] then b else some s
  | none => b

/-- `parseFloat(resolved || 0)`: the literal `0` is coerced to `"0"`, so a
missing or empty field parses as 0. -/
def numFieldFloat (resolved : Option JStr) : JSNum :=
  match resolved with
  | none => JSNum.num 0
  | some s => if s = [] then JSNum.num 0 else jsParseFloat s

/-- `parseInt(resolved || 0)`. -/
def numFieldInt (resolved : Option JStr) : JSNum :=
  match resolved with
  | none => JSNum.num 0
  | some s => if s = [] then JSNum.num 0 else jsParseInt s

/-- The cleaned cells of a data line:
`line.split(',').map(v => v.trim().replace(/^"|"$/g, ''))`. -/
def lineCells (line : JStr) : List JStr :=
  (splitOnChar ',' line).map (fun v => stripQuotes (jsTrim v))

/-- The body data lines: every line after the header whose trim is nonempty
(`lines.slice(1).filter(l => l.trim())`). -/
def bodyLines (lines : List JStr) : List JStr :=
  lines.tail.filter (fun l => jsTrim l ≠ [])

/-- A historical record as produced by `parseCSV`: the alias chain for the
part number can produce `undefined`, numeric fields can be `NaN`, and the
generated `crypto.randomUUID()` id is not modelled. -/
structure ParsedHistorical where
  partNumber : Option JStr
  country : Option JStr
  usdPrice : JSNum
  quantity : JSNum
  leadTimeDays : JSNum
  vendor : Option JStr
  date : JStr
  deriving DecidableEq, Repr

/-- The record `parseCSV` builds from one data line (the body of the map on
lines 179–193 of `dataService.ts`). -/
def parseCSVRow (now : JStr) (headers : List JStr) (line : JStr) : ParsedHistorical :=
  let obj := rowObj headers (lineCells line)
  { partNumber := jsOrStr (obj "part number".data) (jsOrStr (obj "partnumber".data) (obj "sku".data))
    country := obj "country".data
    usdPrice := numFieldFloat (jsOrStr (obj "usd pricing".data) (jsOrStr (obj "usd price".data) (obj "price".data)))
    quantity := numFieldInt (jsOrStr (obj "quantity".data) (obj "qty".data))
    leadTimeDays := numFieldInt (jsOrStr (obj "lead time days".data) (jsOrStr (obj "lead time".data) (obj "leadtime".data)))
    vendor := obj "vendor".data
    date := (jsOrStr (obj "date".data) (some now)).getD now }

/-- `parseCSV` (`dataService.ts`, lines 175–194).  `now` is the injected
value of `new Date().toISOString()`, used when the date field is missing or
empty. -/
def parseCSV (now : JStr) (csvText : JStr) : List ParsedHistorical :=
  match splitOnChar '\n' csvText with
  | [] => []
  | [_] => []
  | headerLine :: rest =>
      let headers := (splitOnChar ',' headerLine).map (fun h => stripParens (jsToLower (jsTrim h)))
      (bodyLines (headerLine :: rest)).map (parseCSVRow now headers)

/-- A negotiated rate as produced by `parseNegotiationCSV`. -/
structure ParsedNegotiatedRate where
  partNumber : Option JStr
  vendor : Option JStr
  country : Option JStr
  proposedPrice : JSNum
  proposedLeadTime : JSNum
  deriving DecidableEq, Repr

/-- `parseNegotiationCSV` (`dataService.ts`, lines 91–107).  Header tokens
are trimmed and lower-cased (no parenthesis stripping on this variant). -/
def parseNegotiationCSV (csvText : JStr) : List ParsedNegotiatedRate :=
  match splitOnChar '\n' csvText with
  | [] => []
  | [_] => []
  | headerLine :: rest =>
      let headers := (splitOnChar ',' headerLine).map (fun h => jsToLower (jsTrim h))
      (bodyLines (headerLine :: rest)).map (fun line =>
        let obj := rowObj headers (lineCells line)
        { partNumber := jsOrStr (obj "part number".data) (obj "partnumber".data)
          vendor := obj "vendor".data
          country := obj "country".data
          proposedPrice := numFieldFloat (jsOrStr (obj "proposed price".data) (obj "price".data))
          proposedLeadTime := numFieldInt (jsOrStr (obj "proposed lead time".data) (obj "lead time".data)) })

/-- A raw forecast-CSV row (`parseForecastCSV`, lines 114–128). -/
structure RawForecastPoint where
  partNumber : Option JStr
  vendor : Option JStr
  country : Option JStr
  date : Option JStr
  predictedPrice : JSNum
  predictedLeadTime : JSNum
  confidenceIntervalUpper : JSNum
  confidenceIntervalLower : JSNum
  deriving DecidableEq, Repr

/-- The flat row list built by `parseForecastCSV` before grouping. -/
def forecastRawPoints (csvText : JStr) : List RawForecastPoint :=
  match splitOnChar '\n' csvText with
  | [] => []
  | [_] => []
  | headerLine :: rest =>
      let headers := (splitOnChar ',' headerLine).map (fun h => jsToLower (jsTrim h))
      (bodyLines (headerLine :: rest)).map (fun line =>
        let obj := rowObj headers (lineCells line)
        { partNumber := jsOrStr (obj "part number".data) (obj "partnumber".data)
          vendor := obj "vendor".data
          country := obj "country".data
          date := obj "date".data
          predictedPrice := numFieldFloat (obj "predicted price".data)
          predictedLeadTime := numFieldInt (obj "predicted lead time".data)
          confidenceIntervalUpper := numFieldFloat (obj "confidence upper".data)
          confidenceIntervalLower := numFieldFloat (obj "confidence lower".data) })

/-- A forecast point (`ForecastPoint` in `src/types.ts`, as filled in by
`parseForecastCSV`). -/
structure ForecastPoint where
  date : Option JStr
  predictedPrice : JSNum
  predictedLeadTime : JSNum
  confidenceIntervalUpper : JSNum
  confidenceIntervalLower : JSNum
  deriving DecidableEq, Repr

/-- Trend direction (`'up' | 'down' | 'stable'`). -/
inductive Trend where
  | up : Trend
  | down : Trend
  | stable : Trend
  deriving DecidableEq, Repr

/-- The summary block of a `ForecastResult`. -/
structure ForecastSummary where
  avgPredictedPrice : JSNum
  avgPredictedLeadTime : JSNum
  priceTrend : Trend
  leadTimeTrend : Trend
  optimizedOrderQuantity : JSNum
  deriving DecidableEq, Repr

/-- `ForecastResult` (`src/types.ts`), as built by `parseForecastCSV`. -/
structure ForecastResult where
  partNumber : Option JStr
  vendor : Option JStr
  country : Option JStr
  forecast : List ForecastPoint
  summary : ForecastSummary
  deriving DecidableEq, Repr

/-- String interpolation of a possibly-undefined field:
`` `${p.partNumber}` `` prints the text `undefined` for a missing value. -/
def showField : Option JStr → JStr
  | none => "undefined".data
  | some s => s

/-- The grouping key `` `${p.partNumber}|${p.vendor}|${p.country}` ``. -/
def groupKey (p : RawForecastPoint) : JStr :=
  showField p.partNumber ++ '|' :: showField p.vendor ++ '|' :: showField p.country

/-- The `ForecastPoint` pushed for a raw row. -/
def toForecastPoint (p : RawForecastPoint) : ForecastPoint :=
  { date := p.date
    predictedPrice := p.predictedPrice
    predictedLeadTime := p.predictedLeadTime
    confidenceIntervalUpper := p.confidenceIntervalUpper
    confidenceIntervalLower := p.confidenceIntervalLower }

/-- The zeroed summary a fresh group starts with. -/
def initialSummary : ForecastSummary :=
  { avgPredictedPrice := JSNum.num 0
    avgPredictedLeadTime := JSNum.num 0
    priceTrend := Trend.stable
    leadTimeTrend := Trend.stable
    optimizedOrderQuantity := JSNum.num 0 }

/-- One step of the grouping loop: look the key up in the insertion-ordered
map, creating the entry on a miss, and append the point to its forecast. -/
def insertPoint (acc : List (JStr × ForecastResult)) (p : RawForecastPoint) :
    List (JStr × ForecastResult) :=
  if acc.any (fun e => e.1 = groupKey p) then
    acc.map (fun e =>
      if e.1 = groupKey p then
        (e.1, { e.2 with forecast := e.2.forecast ++ [toForecastPoint p] })
      else e)
  else
    acc ++ [(groupKey p,
      { partNumber := p.partNumber
        vendor := p.vendor
        country := p.country
        forecast := [toForecastPoint p]
        summary := initialSummary })]

/-- The summary pass run on every grouped result (`parseForecastCSV`,
lines 159–170). -/
def computeSummary (res : ForecastResult) : ForecastResult :=
  let prices := res.forecast.map (·.predictedPrice)
  let leadTimes := res.forecast.map (·.predictedLeadTime)
  let priceTrend :=
    if 1 < prices.length then
      let diff := JSNum.sub ((prices.getLast?).getD (JSNum.num 0)) ((prices.head?).getD (JSNum.num 0))
      if diff.gtb (JSNum.num 0) then Trend.up
      else if diff.ltb (JSNum.num 0) then Trend.down
      else Trend.stable
    else res.summary.priceTrend
  { res with summary :=
      { res.summary with
        avgPredictedPrice := (JSNum.sumList prices).div (JSNum.num prices.length)
        avgPredictedLeadTime := (JSNum.sumList leadTimes).div (JSNum.num leadTimes.length)
        priceTrend := priceTrend } }

/-- `parseForecastCSV` (`dataService.ts`, lines 109–173): parse the raw
rows, group them by the part|vendor|country key string in first-seen order,
then fill in each group's summary. -/
def parseForecastCSV (csvText : JStr) : List ForecastResult :=
  ((forecastRawPoints csvText).foldl insertPoint []).map (fun e => computeSummary e.2)

/-! ## Sample-CSV encoding (`generateSampleCSV`, lines 82–89)

`generateSampleCSV` encodes randomly generated rows; the encoding step,
parameterised over the data, is
`[headers.join(','), ...rows.map(r => r.join(','))].join('\n')` with string
fields wrapped in double quotes and numeric fields printed bare. -/

/-- The sample-CSV header line. -/
def sampleCSVHeader : JStr := "Part Number,Country,USD Pricing,Quantity,Lead Time (Days),Vendor,Date".data

/-! ## Combination enumeration (`src/App.tsx`, lines 180–191) -/

/-- `Array.from(new Set(l))`: distinct elements in first-seen order. -/
def dedupFirstSeen [DecidableEq α] (l : List α) : List α :=
  l.foldl (fun acc x => if x ∈ acc then acc else acc ++ [x]) []

/-- The (part, vendor, country) triples pushed by `handleGenerateAllForecasts`:
for each first-seen part, each first-seen vendor among that part's records,
and each first-seen country among that part-and-vendor's records. -/
def enumerateCombinations (data : List HistoricalData) : List FilterState :=
  (dedupFirstSeen (data.map (·.partNumber))).flatMap (fun p =>
    let filteredByP := data.filter (fun d => d.partNumber = p)
    (dedupFirstSeen (filteredByP.map (·.vendor))).flatMap (fun v =>
      (dedupFirstSeen ((filteredByP.filter (fun d => d.vendor = v)).map (·.country))).map
        (fun c => { partNumber := p, vendor := v, country := c })))

/-! ## Forecast request preconditions (`getForecastFromAI`)

Both versions of the AI service define `getForecastFromAI` with the same
precondition logic: filter the history to the selected key, sort it by
`new Date(d.date).getTime()` (modelled by the injected `getTime`), throw
before any engine call when no or fewer than 3 records match, and otherwise
build the request from the trailing slice of the sorted context (24 records
in one version, 36 in the other; the slice width is a parameter here). -/

/-- The request that would be sent to the external engine. -/
structure AIForecastRequest where
  model : JStr
  filters : FilterState
  context : List HistoricalData
  deriving DecidableEq, Repr

/-- `getForecastFromAI` up to the external call: `.error` models a thrown
error, `.ok` carries the request the engine would receive. -/
def getForecastFromAI (getTime : JStr → ℚ) (sliceN : Nat)
    (historicalData : List HistoricalData) (filters : FilterState) (model : JStr) :
    Except JStr AIForecastRequest :=
  let contextData := sortByKey (fun d => getTime d.date)
    (historicalData.filter (fun d =>
      d.partNumber = filters.partNumber ∧ d.vendor = filters.vendor ∧ d.country = filters.country))
  if contextData.length = 0 then
    .error "Missing Historical Data: No records found matching the selected filters.".data
  else if contextData.length < 3 then
    .error "Insufficient Data: At least 3 historical points are required for a reliable AI forecast.".data
  else
    .ok { model := model, filters := filters,
          context := contextData.drop (contextData.length - sliceN) }

/-! ## C8: header-only input decodes to the empty collection -/

theorem bodyLines_eq_nil (text : JStr)
    (h : ∀ l ∈ (splitOnChar '\n' text).tail, jsTrim l = [])
    (hd : JStr) (tl : List JStr) (heq : splitOnChar '\n' text = hd :: tl) :
    bodyLines (hd :: tl) = [] := by
  simp only [bodyLines, List.tail_cons]
  rw [List.filter_eq_nil_iff]
  intro a ha
  have hta : a ∈ (splitOnChar '\n' text).tail := by rw [heq]; exact ha
  simp [h a hta]

/-- C8: input whose body has no non-blank data line (including input with
fewer than two lines) makes each of the three decoders return the empty
list; none of them can fail. -/
theorem parsers_empty_on_blank_body (now text : JStr)
    (h : ∀ l ∈ (splitOnChar '\n' text).tail, jsTrim l = []) :
    parseCSV now text = [] ∧ parseNegotiationCSV text = [] ∧ parseForecastCSV text = [] := by
  unfold parseCSV parseNegotiationCSV parseForecastCSV forecastRawPoints
  rcases heq : splitOnChar '\n' text with _ | ⟨hd, tl⟩
  · simp
  · rcases tl with _ | ⟨t1, tl'⟩
    · simp
    · have hbody := bodyLines_eq_nil text h hd (t1 :: tl') heq
      simp [hbody]

/-- Witness for `parsers_empty_on_blank_body`: a header line followed only
by a blank line. -/
theorem parsers_empty_on_blank_body_witness :
    parseCSV [] "Part Number,Country\n  \n".data = []
    ∧ parseNegotiationCSV "Part Number,Country\n  \n".data = []
    ∧ parseForecastCSV "Part Number,Country\n  \n".data = [] :=
  parsers_empty_on_blank_body [] "Part Number,Country\n  \n".data (by decide)

/-! ## Grouping lemmas for `parseForecastCSV` -/

theorem foldl_dedup_step_mem [DecidableEq α] (l : List α) :
    ∀ (acc : List α) (y : α),
      y ∈ l.foldl (fun acc x => if x ∈ acc then acc else acc ++ [x]) acc ↔ y ∈ acc ∨ y ∈ l := by
  induction l with
  | nil => simp
  | cons x l ih =>
      intro acc y
      rw [List.foldl_cons, ih]
      by_cases hx : x ∈ acc
      · simp only [if_pos hx, List.mem_cons]
        constructor
        · rintro (h | h)
          · exact Or.inl h
          · exact Or.inr (Or.inr h)
        · rintro (h | h | h)
          · exact Or.inl h
          · exact Or.inl (h ▸ hx)
          · exact Or.inr h
      · simp only [if_neg hx, List.mem_append, List.mem_singleton, List.mem_cons]
        tauto

theorem mem_dedupFirstSeen [DecidableEq α] (l : List α) (y : α) :
    y ∈ dedupFirstSeen l ↔ y ∈ l := by
  unfold dedupFirstSeen
  rw [foldl_dedup_step_mem]
  simp

theorem foldl_dedup_step_nodup [DecidableEq α] (l : List α) :
    ∀ acc : List α, acc.Nodup →
      (l.foldl (fun acc x => if x ∈ acc then acc else acc ++ [x]) acc).Nodup := by
  induction l with
  | nil => simp
  | cons x l ih =>
      intro acc hacc
      rw [List.foldl_cons]
      by_cases hx : x ∈ acc
      · rw [if_pos hx]; exact ih acc hacc
      · rw [if_neg hx]
        exact ih _ ((List.nodup_append.2 ⟨hacc, List.nodup_singleton x, by simpa using hx⟩))

theorem dedupFirstSeen_nodup [DecidableEq α] (l : List α) : (dedupFirstSeen l).Nodup :=
  foldl_dedup_step_nodup l [] List.nodup_nil

theorem dedupFirstSeen_concat [DecidableEq α] (l : List α) (x : α) :
    dedupFirstSeen (l ++ [x])
      = if x ∈ l then dedupFirstSeen l else dedupFirstSeen l ++ [x] := by
  unfold dedupFirstSeen
  rw [List.foldl_append, List.foldl_cons, List.foldl_nil]
  by_cases hx : x ∈ l
  · rw [if_pos ((foldl_dedup_step_mem l [] x).2 (Or.inr hx)), if_pos hx]
  · rw [if_neg, if_neg hx]
    intro hmem
    rcases (foldl_dedup_step_mem l [] x).1 hmem with h | h
    · simp at h
    · exact hx h

/-- The group a key string accumulates over a row list: identity fields from
the key's first row, forecast points from all its rows in input order. -/
def rawGroup (ps : List RawForecastPoint) (k : JStr) : ForecastResult :=
  let members := ps.filter (fun q => groupKey q = k)
  { partNumber := members.head?.bind (·.partNumber)
    vendor := members.head?.bind (·.vendor)
    country := members.head?.bind (·.country)
    forecast := members.map toForecastPoint
    summary := initialSummary }

theorem rawGroup_concat_ne (ps : List RawForecastPoint) (p : RawForecastPoint) (k : JStr)
    (hk : k ≠ groupKey p) : rawGroup (ps ++ [p]) k = rawGroup ps k := by
  unfold rawGroup
  have hfil : (ps ++ [p]).filter (fun q => groupKey q = k) = ps.filter (fun q => groupKey q = k) := by
    rw [List.filter_append]
    simp [hk.symm]
  rw [hfil]

theorem filter_key_concat (ps : List RawForecastPoint) (p : RawForecastPoint) :
    (ps ++ [p]).filter (fun q => groupKey q = groupKey p)
      = ps.filter (fun q => groupKey q = groupKey p) ++ [p] := by
  rw [List.filter_append]
  simp

theorem rawGroup_concat_update (qs : List RawForecastPoint) (p : RawForecastPoint)
    (hne : qs.filter (fun q => groupKey q = groupKey p) ≠ []) :
    rawGroup (qs ++ [p]) (groupKey p)
      = { rawGroup qs (groupKey p) with
          forecast := (rawGroup qs (groupKey p)).forecast ++ [toForecastPoint p] } := by
  unfold rawGroup
  rw [filter_key_concat]
  rcases List.exists_cons_of_ne_nil hne with ⟨m, ms, hm⟩
  simp [hm]

theorem rawGroup_concat_new (qs : List RawForecastPoint) (p : RawForecastPoint)
    (hnil : qs.filter (fun q => groupKey q = groupKey p) = []) :
    rawGroup (qs ++ [p]) (groupKey p)
      = { partNumber := p.partNumber, vendor := p.vendor, country := p.country,
          forecast := [toForecastPoint p], summary := initialSummary } := by
  unfold rawGroup
  rw [filter_key_concat, hnil]
  simp

/-- After processing rows `ps`, the grouping accumulator is: one entry per
distinct key in first-seen order, holding that key's accumulated group. -/
theorem foldl_insertPoint_canonical (ps : List RawForecastPoint) :
    ps.foldl insertPoint []
      = (dedupFirstSeen (ps.map groupKey)).map (fun k => (k, rawGroup ps k)) := by
  induction ps using List.reverseRecOn with
  | nil => simp [dedupFirstSeen]
  | append_singleton qs p ih =>
      rw [List.foldl_append, List.foldl_cons, List.foldl_nil, ih, List.map_append,
        List.map_singleton, dedupFirstSeen_concat]
      unfold insertPoint
      by_cases hmem : groupKey p ∈ qs.map groupKey
      · rw [if_pos hmem]
        have hany : ((dedupFirstSeen (qs.map groupKey)).map
            (fun k => (k, rawGroup qs k))).any (fun e => e.1 = groupKey p) = true := by
          rw [List.any_eq_true]
          refine ⟨(groupKey p, rawGroup qs (groupKey p)), ?_, by simp⟩
          exact List.mem_map_of_mem _ ((mem_dedupFirstSeen _ _).2 hmem)
        rw [if_pos hany, List.map_map]
        apply List.map_congr_left
        intro k hk
        by_cases hkp : k = groupKey p
        · subst hkp
          have hne : qs.filter (fun q => groupKey q = groupKey p) ≠ [] := by
            rcases List.mem_map.1 hmem with ⟨q, hq, hqk⟩
            exact List.ne_nil_of_mem (List.mem_filter.2 ⟨hq, by simp [hqk]⟩)
          simp [rawGroup_concat_update qs p hne]
        · simp only [Function.comp_apply, if_neg hkp]
          rw [rawGroup_concat_ne qs p k hkp]
      · rw [if_neg hmem]
        have hany : ((dedupFirstSeen (qs.map groupKey)).map
            (fun k => (k, rawGroup qs k))).any (fun e => e.1 = groupKey p) = false := by
          rw [List.any_eq_false]
          rintro ⟨k, g⟩ hkg
          rcases List.mem_map.1 hkg with ⟨k2, hk2, hk2eq⟩
          have hkk : k = k2 := by cases hk2eq; rfl
          subst hkk
          have hkq : k ∈ qs.map groupKey := (mem_dedupFirstSeen _ _).1 hk2
          simp only [decide_eq_true_eq]
          intro hkp
          exact hmem (hkp ▸ hkq)
        rw [if_neg (by simp [hany]), List.map_append]
        congr 1
        · apply List.map_congr_left
          intro k hk
          have hkq : k ∈ qs.map groupKey := (mem_dedupFirstSeen _ _).1 hk
          have hkp : k ≠ groupKey p := fun h => hmem (h ▸ hkq)
          rw [rawGroup_concat_ne qs p k hkp]
        · have hfilter : qs.filter (fun q => groupKey q = groupKey p) = [] := by
            rw [List.filter_eq_nil_iff]
            intro q hq
            simp only [decide_eq_true_eq]
            intro hqk
            exact hmem (List.mem_map.2 ⟨q, hq, hqk⟩)
          rw [List.map_singleton, rawGroup_concat_new qs p hfilter]

theorem computeSummary_forecast (r : ForecastResult) :
    (computeSummary r).forecast = r.forecast := rfl

theorem sub_gtb_zero (a b : JSNum) : (a.sub b).gtb (JSNum.num 0) = a.gtb b := by
  cases a <;> cases b <;> simp [JSNum.sub, JSNum.gtb, sub_pos]

theorem sub_ltb_zero (a b : JSNum) : (a.sub b).ltb (JSNum.num 0) = a.ltb b := by
  cases a <;> cases b <;> simp [JSNum.sub, JSNum.ltb, sub_neg]

theorem mem_parseForecastCSV (csv : JStr) (res : ForecastResult) :
    res ∈ parseForecastCSV csv ↔
      ∃ k ∈ dedupFirstSeen ((forecastRawPoints csv).map groupKey),
        res = computeSummary (rawGroup (forecastRawPoints csv) k) := by
  unfold parseForecastCSV
  rw [foldl_insertPoint_canonical, List.map_map]
  simp only [List.mem_map, Function.comp_apply]
  constructor
  · rintro ⟨k, hk, rfl⟩; exact ⟨k, hk, rfl⟩
  · rintro ⟨k, hk, rfl⟩; exact ⟨k, hk, rfl⟩

/-- C10: every `ForecastResult` produced by `parseForecastCSV` has at least
one forecast point — a group is only created when a data row with its key
exists — so the summary averages divide by a positive count. -/
theorem parseForecastCSV_forecast_nonempty (csv : JStr) :
    ∀ res ∈ parseForecastCSV csv, 1 ≤ res.forecast.length := by
  intro res hres
  rcases (mem_parseForecastCSV csv res).1 hres with ⟨k, hk, rfl⟩
  rw [computeSummary_forecast]
  have hkmem : k ∈ (forecastRawPoints csv).map groupKey := (mem_dedupFirstSeen _ _).1 hk
  rcases List.mem_map.1 hkmem with ⟨q, hq, hqk⟩
  have hqfil : q ∈ (forecastRawPoints csv).filter (fun r => groupKey r = k) :=
    List.mem_filter.2 ⟨hq, by simp [hqk]⟩
  have hne : (forecastRawPoints csv).filter (fun r => groupKey r = k) ≠ [] :=
    List.ne_nil_of_mem hqfil
  unfold rawGroup
  simp only [List.length_map]
  exact Nat.one_le_iff_ne_zero.2 (fun h => hne (List.eq_nil_of_length_eq_zero h))

/-- A one-row forecast CSV used to instantiate the universal theorems. -/
def fcW : JStr :=
  "Part Number,Vendor,Country,Date,Predicted Price,Predicted Lead Time,Confidence Upper,Confidence Lower\nA,V,US,2024-01-01,10,5,12,8".data

/-- The single result `parseForecastCSV` produces on `fcW`. -/
def fcWRes : ForecastResult :=
  { partNumber := some "A".data
    vendor := some "V".data
    country := some "US".data
    forecast := [{ date := some "2024-01-01".data
                   predictedPrice := JSNum.num 10
                   predictedLeadTime := JSNum.num 5
                   confidenceIntervalUpper := JSNum.num 12
                   confidenceIntervalLower := JSNum.num 8 }]
    summary := { avgPredictedPrice := JSNum.num 10
                 avgPredictedLeadTime := JSNum.num 5
                 priceTrend := Trend.stable
                 leadTimeTrend := Trend.stable
                 optimizedOrderQuantity := JSNum.num 0 } }

/-- Witness for `parseForecastCSV_forecast_nonempty` on the concrete
one-row CSV. -/
theorem parseForecastCSV_forecast_nonempty_witness : 1 ≤ fcWRes.forecast.length :=
  parseForecastCSV_forecast_nonempty fcW fcWRes (by with_unfolding_all decide)

/-- C7: on the CSV-import path every summary keeps the default
`leadTimeTrend = stable` and `optimizedOrderQuantity = 0`, while
`priceTrend` compares the last point's predictedPrice against the first
point's (in input order): `up` when strictly greater, `down` when strictly
less, and `stable` otherwise — in particular for every single-point group. -/
theorem parseForecastCSV_summary_defaults (csv : JStr) :
    ∀ res ∈ parseForecastCSV csv,
      res.summary.leadTimeTrend = Trend.stable
      ∧ res.summary.optimizedOrderQuantity = JSNum.num 0
      ∧ res.summary.priceTrend =
          (if 1 < res.forecast.length then
            (if ((res.forecast.getLast?.map (·.predictedPrice)).getD (JSNum.num 0)).gtb
                  ((res.forecast.head?.map (·.predictedPrice)).getD (JSNum.num 0)) then Trend.up
             else if ((res.forecast.getLast?.map (·.predictedPrice)).getD (JSNum.num 0)).ltb
                  ((res.forecast.head?.map (·.predictedPrice)).getD (JSNum.num 0)) then Trend.down
             else Trend.stable)
           else Trend.stable) := by
  intro res hres
  rcases (mem_parseForecastCSV csv res).1 hres with ⟨k, hk, rfl⟩
  refine ⟨rfl, rfl, ?_⟩
  rw [computeSummary_forecast]
  show (computeSummary (rawGroup (forecastRawPoints csv) k)).summary.priceTrend = _
  unfold computeSummary
  simp only [List.length_map, List.getLast?_map, List.head?_map,
    sub_gtb_zero, sub_ltb_zero]
  split
  · rfl
  · rfl

/-- Witness for `parseForecastCSV_summary_defaults` at the one-row CSV
`fcW`, whose single result is `fcWRes`. -/
theorem parseForecastCSV_summary_defaults_witness :
    fcWRes.summary.leadTimeTrend = Trend.stable
    ∧ fcWRes.summary.optimizedOrderQuantity = JSNum.num 0
    ∧ fcWRes.summary.priceTrend =
        (if 1 < fcWRes.forecast.length then
          (if ((fcWRes.forecast.getLast?.map (·.predictedPrice)).getD (JSNum.num 0)).gtb
                ((fcWRes.forecast.head?.map (·.predictedPrice)).getD (JSNum.num 0)) then Trend.up
           else if ((fcWRes.forecast.getLast?.map (·.predictedPrice)).getD (JSNum.num 0)).ltb
                ((fcWRes.forecast.head?.map (·.predictedPrice)).getD (JSNum.num 0)) then Trend.down
           else Trend.stable)
         else Trend.stable) :=
  parseForecastCSV_summary_defaults fcW fcWRes (by with_unfolding_all decide)

/-- C3 (amended): `parseForecastCSV` returns exactly one result per distinct
joined key string `` `${partNumber}|${vendor}|${country}` `` occurring in the
data rows (which coincides with one result per distinct field triple exactly
when the fields are defined and `|`-free), in first-seen order; each result
carries its key's rows' points in input order and identity fields from the
key's first row, and each summary average is the arithmetic mean
(sum divided by count) over the group's points. -/
theorem parseForecastCSV_grouped (csv : JStr) :
    parseForecastCSV csv
      = (dedupFirstSeen ((forecastRawPoints csv).map groupKey)).map
          (fun k => computeSummary (rawGroup (forecastRawPoints csv) k))
    ∧ ∀ res ∈ parseForecastCSV csv,
        res.summary.avgPredictedPrice
          = (JSNum.sumList (res.forecast.map (·.predictedPrice))).div
              (JSNum.num (res.forecast.map (·.predictedPrice)).length)
        ∧ res.summary.avgPredictedLeadTime
          = (JSNum.sumList (res.forecast.map (·.predictedLeadTime))).div
              (JSNum.num (res.forecast.map (·.predictedLeadTime)).length) := by
  constructor
  · unfold parseForecastCSV
    rw [foldl_insertPoint_canonical, List.map_map]
    rfl
  · intro res hres
    rcases (mem_parseForecastCSV csv res).1 hres with ⟨k, hk, rfl⟩
    exact ⟨rfl, rfl⟩

/-- Witness for `parseForecastCSV_grouped`: the summary averages of the
single result on the one-row CSV `fcW`. -/
theorem parseForecastCSV_grouped_witness :
    fcWRes.summary.avgPredictedPrice
      = (JSNum.sumList (fcWRes.forecast.map (·.predictedPrice))).div
          (JSNum.num (fcWRes.forecast.map (·.predictedPrice)).length)
    ∧ fcWRes.summary.avgPredictedLeadTime
      = (JSNum.sumList (fcWRes.forecast.map (·.predictedLeadTime))).div
          (JSNum.num (fcWRes.forecast.map (·.predictedLeadTime)).length) :=
  (parseForecastCSV_grouped fcW).2 fcWRes (by with_unfolding_all decide)

/-- A forecast CSV whose two rows have distinct (partNumber, vendor,
country) triples that share the joined key string `a|b|c|x`. -/
def keyCollisionCSV : JStr :=
  "Part Number,Vendor,Country,Date,Predicted Price,Predicted Lead Time,Confidence Upper,Confidence Lower\na|b,c,x,2024-01-01,1,1,1,1\na,b|c,x,2024-02-01,2,2,2,2".data

/-- Counterexample to C3 as stated: the rows' field triples
`("a|b", "c", "x")` and `("a", "b|c", "x")` are distinct, yet the `|`-joined
grouping key collides, so `parseForecastCSV` returns one merged result
instead of one result per distinct triple. -/
theorem parseForecastCSV_triple_collision :
    ((forecastRawPoints keyCollisionCSV).map (fun p => (p.partNumber, p.vendor, p.country))
        = [(some "a|b".data, some "c".data, some "x".data),
           (some "a".data, some "b|c".data, some "x".data)])
    ∧ (some "a|b".data, some "c".data, (some "x".data : Option JStr))
        ≠ (some "a".data, some "b|c".data, some "x".data)
    ∧ (parseForecastCSV keyCollisionCSV).length = 1 := by
  with_unfolding_all decide

/-! ## C4: combination enumeration -/

/-- A record with the given key fields and zeroed numerics, for concrete
combination-enumeration inputs. -/
def keyRec (pn vend ctry : String) : HistoricalData :=
  { id := [], partNumber := pn.data, country := ctry.data, usdPrice := 0,
    quantity := 0, leadTimeDays := 0, vendor := vend.data, date := [] }

/-- C4: the bulk-forecast combination enumeration emits exactly the
(partNumber, vendor, country) triples that co-occur in at least one record —
never a merely componentwise-present triple — without duplicates, and on the
three-record example dataset it yields exactly
`(A,V1,US), (A,V2,DE), (B,V1,US)` in that nested first-seen order. -/
theorem enumerateCombinations_spec (data : List HistoricalData) :
    (∀ f : FilterState, f ∈ enumerateCombinations data ↔
        ∃ d ∈ data, d.partNumber = f.partNumber ∧ d.vendor = f.vendor ∧ d.country = f.country)
    ∧ (enumerateCombinations data).Nodup
    ∧ enumerateCombinations [keyRec "A" "V1" "US", keyRec "A" "V2" "DE", keyRec "B" "V1" "US"]
        = [{ partNumber := "A".data, vendor := "V1".data, country := "US".data },
           { partNumber := "A".data, vendor := "V2".data, country := "DE".data },
           { partNumber := "B".data, vendor := "V1".data, country := "US".data }] := by
  refine ⟨?_, ?_, by with_unfolding_all decide⟩
  · intro f
    unfold enumerateCombinations
    simp only [List.mem_flatMap, List.mem_map, mem_dedupFirstSeen, List.mem_filter,
      decide_eq_true_eq]
    constructor
    · rintro ⟨p, -, v, -, c, ⟨d, ⟨⟨hd, hdp⟩, hdv⟩, hdc⟩, rfl⟩
      exact ⟨d, hd, hdp, hdv, hdc⟩
    · rintro ⟨d, hd, hpn, hv, hc⟩
      exact ⟨f.partNumber, ⟨d, hd, hpn⟩, f.vendor, ⟨d, ⟨hd, hpn⟩, hv⟩,
        f.country, ⟨d, ⟨⟨hd, hpn⟩, hv⟩, hc⟩, rfl⟩
  · unfold enumerateCombinations
    rw [List.nodup_flatMap]
    constructor
    · intro p hp
      rw [List.nodup_flatMap]
      constructor
      · intro v hv
        refine List.Nodup.map ?_ (dedupFirstSeen_nodup _)
        intro c c2 h
        exact congrArg FilterState.country h
      · refine List.Pairwise.imp ?_ (dedupFirstSeen_nodup _)
        intro v v2 hne
        intro x hx hx2
        rcases List.mem_map.1 hx with ⟨c, _, rfl⟩
        rcases List.mem_map.1 hx2 with ⟨c2, _, heq⟩
        exact hne (congrArg FilterState.vendor heq).symm
    · refine List.Pairwise.imp ?_ (dedupFirstSeen_nodup _)
      intro p p2 hne
      intro x hx hx2
      have h1 : x.partNumber = p := by
        rcases List.mem_flatMap.1 hx with ⟨v, hv, hxx⟩
        rcases List.mem_map.1 hxx with ⟨c, _, rfl⟩
        rfl
      have h2 : x.partNumber = p2 := by
        rcases List.mem_flatMap.1 hx2 with ⟨v, hv, hxx⟩
        rcases List.mem_map.1 hxx with ⟨c, _, rfl⟩
        rfl
      exact hne (h1 ▸ h2)

/-- Witness for `enumerateCombinations_spec`: the co-occurring triple
`(A, V1, US)` is enumerated on the example dataset. -/
theorem enumerateCombinations_spec_witness :
    ({ partNumber := "A".data, vendor := "V1".data, country := "US".data } : FilterState)
      ∈ enumerateCombinations [keyRec "A" "V1" "US", keyRec "A" "V2" "DE", keyRec "B" "V1" "US"] :=
  ((enumerateCombinations_spec
      [keyRec "A" "V1" "US", keyRec "A" "V2" "DE", keyRec "B" "V1" "US"]).1 _).2
    ⟨keyRec "A" "V1" "US", by with_unfolding_all decide⟩

/-! ## C9: forecast request preconditions -/

/-- C9: for any date interpretation `getTime`, slice width, dataset and key,
the single-forecast request fails synchronously — before any request object
for the external engine is built — whenever fewer than 3 records match the
key, and a request is produced exactly when at least 3 records match. -/
theorem getForecastFromAI_precondition (getTime : JStr → ℚ) (sliceN : Nat)
    (historicalData : List HistoricalData) (filters : FilterState) (model : JStr) :
    ((historicalData.filter (fun d =>
        d.partNumber = filters.partNumber ∧ d.vendor = filters.vendor ∧ d.country = filters.country)).length < 3 →
      ∃ e, getForecastFromAI getTime sliceN historicalData filters model = Except.error e)
    ∧ ((∃ r, getForecastFromAI getTime sliceN historicalData filters model = Except.ok r) ↔
        3 ≤ (historicalData.filter (fun d =>
          d.partNumber = filters.partNumber ∧ d.vendor = filters.vendor ∧ d.country = filters.country)).length) := by
  have hlen : (sortByKey (fun d => getTime d.date)
      (historicalData.filter (fun d =>
        d.partNumber = filters.partNumber ∧ d.vendor = filters.vendor ∧ d.country = filters.country))).length
      = (historicalData.filter (fun d =>
        d.partNumber = filters.partNumber ∧ d.vendor = filters.vendor ∧ d.country = filters.country)).length :=
    sortByKey_length _ _
  simp only [getForecastFromAI]
  rw [hlen]
  set n := (historicalData.filter (fun d =>
    d.partNumber = filters.partNumber ∧ d.vendor = filters.vendor ∧ d.country = filters.country)).length with hn
  constructor
  · intro hlt
    by_cases h0 : n = 0
    · rw [if_pos h0]
      exact ⟨_, rfl⟩
    · rw [if_neg h0, if_pos hlt]
      exact ⟨_, rfl⟩
  · constructor
    · rintro ⟨r, hr⟩
      by_contra hge
      rw [not_le] at hge
      by_cases h0 : n = 0
      · rw [if_pos h0] at hr
        exact Except.noConfusion hr
      · rw [if_neg h0, if_pos hge] at hr
        exact Except.noConfusion hr
    · intro hge
      rw [if_neg (by omega), if_neg (by omega)]
      exact ⟨_, rfl⟩

/-- Witness for `getForecastFromAI_precondition`: with two matching records
the request fails before the engine is invoked. -/
theorem getForecastFromAI_precondition_witness :
    ∃ e, getForecastFromAI (fun _ => 0) 24 [keyRec "A" "V1" "US", keyRec "A" "V1" "US"]
      { partNumber := "A".data, vendor := "V1".data, country := "US".data } "gemini-3-flash-preview".data
      = Except.error e :=
  (getForecastFromAI_precondition (fun _ => 0) 24 [keyRec "A" "V1" "US", keyRec "A" "V1" "US"]
      { partNumber := "A".data, vendor := "V1".data, country := "US".data }
      "gemini-3-flash-preview".data).1 (by with_unfolding_all decide)

/-! ## String-splitting and cleaning lemmas -/

/-- `Array.prototype.join` with a single-character separator. -/
def joinChar (c : Char) : List JStr → JStr
  | [] => []
  | [s] => s
  | s :: s2 :: rest => s ++ c :: joinChar c (s2 :: rest)

theorem splitOnChar_no_sep (c : Char) (s : JStr) (h : c ∉ s) :
    splitOnChar c s = [s] := by
  induction s with
  | nil => rfl
  | cons a t ih =>
      have ha : a ≠ c := fun hac => h (hac ▸ List.mem_cons_self a t)
      have ht : c ∉ t := fun hct => h (List.mem_cons_of_mem a hct)
      simp only [splitOnChar, if_neg ha, ih ht]

theorem splitOnChar_append_sep (c : Char) (a rest : JStr) (h : c ∉ a) :
    splitOnChar c (a ++ c :: rest) = a :: splitOnChar c rest := by
  induction a with
  | nil =>
      simp [splitOnChar]
  | cons x xs ih =>
      have hx : x ≠ c := fun hxc => h (hxc ▸ List.mem_cons_self x xs)
      have hxs : c ∉ xs := fun hc => h (List.mem_cons_of_mem x hc)
      simp only [List.cons_append, splitOnChar, if_neg hx, List.append_eq]
      rw [ih hxs]

theorem splitOnChar_joinChar (c : Char) (ls : List JStr)
    (h : ∀ l ∈ ls, c ∉ l) (hne : ls ≠ []) :
    splitOnChar c (joinChar c ls) = ls := by
  induction ls with
  | nil => exact absurd rfl hne
  | cons s rest ih =>
      cases rest with
      | nil =>
          show splitOnChar c (joinChar c [s]) = [s]
          exact splitOnChar_no_sep c s (h s (List.mem_cons_self s []))
      | cons s2 rest2 =>
          show splitOnChar c (s ++ c :: joinChar c (s2 :: rest2)) = s :: s2 :: rest2
          rw [splitOnChar_append_sep c s _ (h s (List.mem_cons_self s _)),
            ih (fun l hl => h l (List.mem_cons_of_mem s hl)) (by simp)]

theorem dropWhile_eq_self_of_head (p : Char → Bool) (s : JStr)
    (h : ∀ c, s.head? = some c → p c = false) : s.dropWhile p = s := by
  cases s with
  | nil => rfl
  | cons a t => simp [List.dropWhile_cons, h a rfl]

theorem jsTrim_eq_self (s : JStr)
    (h1 : ∀ c, s.head? = some c → jsIsWhitespace c = false)
    (h2 : ∀ c, s.getLast? = some c → jsIsWhitespace c = false) : jsTrim s = s := by
  unfold jsTrim
  rw [dropWhile_eq_self_of_head _ s h1]
  rw [dropWhile_eq_self_of_head _ s.reverse (fun c hc => h2 c (by rwa [List.head?_reverse] at hc))]
  exact List.reverse_reverse s

/-- A double-quote-wrapped cell, as written by the sample encoder. -/
def quoteCell (s : JStr) : JStr := '"' :: s ++ ['"']

theorem stripQuotes_quoteCell (mid : JStr) : stripQuotes (quoteCell mid) = mid := by
  simp [stripQuotes, quoteCell, List.getLast?_concat, List.dropLast_concat]

theorem jsTrim_quoteCell (mid : JStr) : jsTrim (quoteCell mid) = quoteCell mid := by
  apply jsTrim_eq_self
  · intro c hc
    have hh : (quoteCell mid).head? = some '"' := rfl
    rw [hh, Option.some.injEq] at hc
    subst hc
    decide
  · intro c hc
    have h2 : (quoteCell mid).getLast? = some '"' := by
      show (('"' :: mid) ++ ['"']).getLast? = some '"'
      exact List.getLast?_concat _
    rw [h2, Option.some.injEq] at hc
    subst hc
    decide

/-- Cleaning a quoted cell recovers the field exactly. -/
theorem clean_quoteCell (mid : JStr) : stripQuotes (jsTrim (quoteCell mid)) = mid := by
  rw [jsTrim_quoteCell, stripQuotes_quoteCell]

theorem stripQuotes_eq_self (s : JStr) (hh : s.head? ≠ some '"')
    (hl : s.getLast? ≠ some '"') : stripQuotes s = s := by
  unfold stripQuotes
  rw [if_neg hh, if_neg hl]

/-- Cleaning an unquoted cell with no surrounding whitespace and no
surrounding quote leaves it unchanged. -/
theorem clean_unquoted (s : JStr)
    (h1 : ∀ c, s.head? = some c → jsIsWhitespace c = false ∧ c ≠ '"')
    (h2 : ∀ c, s.getLast? = some c → jsIsWhitespace c = false ∧ c ≠ '"') :
    stripQuotes (jsTrim s) = s := by
  rw [jsTrim_eq_self s (fun c hc => (h1 c hc).1) (fun c hc => (h2 c hc).1)]
  apply stripQuotes_eq_self
  · intro hc
    cases s with
    | nil => simp at hc
    | cons a t =>
        rw [List.head?_cons] at hc
        exact (h1 a rfl).2 (by cases hc; rfl)
  · intro hc
    cases hs : s.getLast? with
    | none => rw [hs] at hc; exact Option.noConfusion hc
    | some a =>
        rw [hs] at hc
        cases hc
        exact (h2 _ hs).2 rfl

/-! ## C5: numeric-field parse policy -/

/-- The negotiation-CSV header line. -/
def negHeader : JStr := "Part Number,Vendor,Country,Proposed Price,Proposed Lead Time".data

theorem jsTrim_ne_nil (s : JStr) (c : Char) (hmem : c ∈ s)
    (hc : jsIsWhitespace c = false) : jsTrim s ≠ [] := by
  intro h
  unfold jsTrim at h
  have h2 : (s.dropWhile jsIsWhitespace).reverse.dropWhile jsIsWhitespace = [] := by
    have h3 := congrArg List.reverse h
    simpa using h3
  rw [List.dropWhile_eq_nil_iff] at h2
  have hcdrop : c ∈ s.dropWhile jsIsWhitespace := by
    have hsplit : s.takeWhile jsIsWhitespace ++ s.dropWhile jsIsWhitespace = s :=
      List.takeWhile_append_dropWhile jsIsWhitespace s
    rcases List.mem_append.1 (show c ∈ s.takeWhile jsIsWhitespace ++ s.dropWhile jsIsWhitespace by
        rw [hsplit]; exact hmem) with h3 | h3
    · exact absurd (List.mem_takeWhile_imp h3) (by simp [hc])
    · exact h3
  exact absurd (h2 c (List.mem_reverse.2 hcdrop)) (by simp [hc])

theorem mem_joinChar {c x : Char} (ls : List JStr) (h : x ∈ joinChar c ls) :
    x = c ∨ ∃ l ∈ ls, x ∈ l := by
  induction ls with
  | nil => simp [joinChar] at h
  | cons s rest ih =>
      cases rest with
      | nil =>
          right
          exact ⟨s, List.mem_cons_self s [], h⟩
      | cons s2 rest2 =>
          rcases List.mem_append.1 h with h1 | h1
          · exact Or.inr ⟨s, List.mem_cons_self s _, h1⟩
          · rcases List.mem_cons.1 h1 with rfl | h2
            · exact Or.inl rfl
            · rcases ih h2 with h3 | ⟨l, hl, hxl⟩
              · exact Or.inl h3
              · exact Or.inr ⟨l, List.mem_cons_of_mem s hl, hxl⟩

/-- Counterexample to C5 as stated: a data row whose numeric cells hold the
unparseable texts `abc` and `xyz` decodes with `NaN` — not 0 — in both
numeric fields (`parseFloat('abc')` is `NaN`; only a missing or empty field
falls back to the literal 0). -/
theorem parseNegotiationCSV_unparseable_nan :
    (parseNegotiationCSV "Part Number,Vendor,Country,Proposed Price,Proposed Lead Time\nA,V,C,abc,xyz".data).map
        (fun r => (r.proposedPrice, r.proposedLeadTime)) = [(JSNum.nan, JSNum.nan)]
    ∧ JSNum.nan ≠ JSNum.num 0 := by
  with_unfolding_all decide

/-! ## Digit printing and parsing round-trip -/

theorem digitsToNat_concat (xs : JStr) (c : Char) :
    digitsToNat (xs ++ [c]) = digitsToNat xs * 10 + (c.toNat - 48) := by
  unfold digitsToNat
  rw [List.foldl_append]
  rfl

theorem digitChar_toNat (d : Nat) (h : d < 10) : (digitChar d).toNat = 48 + d := by
  interval_cases d <;> decide

theorem digitChar_isDigit (d : Nat) (h : d < 10) : (digitChar d).isDigit = true := by
  interval_cases d <;> decide

theorem natToChars_ne_nil (n : Nat) : natToChars n ≠ [] := by
  unfold natToChars
  split
  · simp
  · rename_i h
    simp [Nat.digits_ne_nil_iff_ne_zero, h]

theorem natToChars_all_digits (n : Nat) : ∀ c ∈ natToChars n, c.isDigit = true := by
  unfold natToChars
  split
  · intro c hc
    rw [List.mem_singleton] at hc
    subst hc
    decide
  · intro c hc
    rw [List.mem_reverse, List.mem_map] at hc
    rcases hc with ⟨d, hd, rfl⟩
    exact digitChar_isDigit d (Nat.digits_lt_base (by norm_num) hd)

theorem digitsToNat_reverse_map (l : List Nat) (h : ∀ d ∈ l, d < 10) :
    digitsToNat ((l.map digitChar).reverse) = Nat.ofDigits 10 l := by
  induction l with
  | nil => rfl
  | cons d l ih =>
      rw [List.map_cons, List.reverse_cons, digitsToNat_concat,
        ih (fun d hd => h d (List.mem_cons_of_mem _ hd)),
        digitChar_toNat d (h d (List.mem_cons_self d l)), Nat.ofDigits_cons]
      omega

theorem digitsToNat_natToChars (n : Nat) : digitsToNat (natToChars n) = n := by
  unfold natToChars
  split
  · rename_i h
    subst h
    rfl
  · rw [digitsToNat_reverse_map _ (fun d hd => Nat.digits_lt_base (by norm_num) hd),
      Nat.ofDigits_digits]

theorem digitsToNat_replicate_zero (j : Nat) (ds : JStr) :
    digitsToNat (List.replicate j '0' ++ ds) = digitsToNat ds := by
  unfold digitsToNat
  rw [List.foldl_append]
  have hz : List.foldl (fun acc c => acc * 10 + (c.toNat - 48)) 0 (List.replicate j '0') = 0 := by
    induction j with
    | zero => rfl
    | succ j ih => rw [List.replicate_succ, List.foldl_cons]; exact ih
  rw [hz]

theorem natToChars_length_le (n k : Nat) (hk : 1 ≤ k) (h : n < 10 ^ k) :
    (natToChars n).length ≤ k := by
  unfold natToChars
  split
  · simpa
  · rename_i hn
    rw [List.length_reverse, List.length_map,
      Nat.digits_len 10 n (by norm_num) hn]
    have := Nat.log_lt_of_lt_pow hn h
    omega

theorem isDigit_not_ws (c : Char) (h : c.isDigit = true) : jsIsWhitespace c = false := by
  by_contra hw
  rw [Bool.not_eq_false] at hw
  simp only [jsIsWhitespace, Bool.or_eq_true, decide_eq_true_eq] at hw
  rcases hw with ((((((h1 | h1) | h1) | h1) | h1) | h1) | h1) | h1 <;>
    (subst h1; exact absurd h (by decide))

theorem takeWhile_all (p : Char → Bool) (l : JStr) (h : ∀ c ∈ l, p c = true) :
    l.takeWhile p = l := by
  induction l with
  | nil => rfl
  | cons a t ih =>
      rw [List.takeWhile_cons, if_pos (h a (List.mem_cons_self a t)),
        ih (fun c hc => h c (List.mem_cons_of_mem a hc))]

theorem takeWhile_append_stop (p : Char → Bool) (xs : JStr) (y : Char) (ys : JStr)
    (hxs : ∀ c ∈ xs, p c = true) (hy : p y = false) :
    (xs ++ y :: ys).takeWhile p = xs := by
  induction xs with
  | nil => simp [List.takeWhile_cons, hy]
  | cons a t ih =>
      rw [List.cons_append, List.takeWhile_cons,
        if_pos (hxs a (List.mem_cons_self a t)),
        ih (fun c hc => hxs c (List.mem_cons_of_mem a hc))]

theorem takeSign_cons_of_digit (a : Char) (t : JStr) (h : a.isDigit = true) :
    takeSign (a :: t) = (1, a :: t) := by
  have ha1 : a ≠ '+' := fun heq => by subst heq; exact absurd h (by decide)
  have ha2 : a ≠ '-' := fun heq => by subst heq; exact absurd h (by decide)
  unfold takeSign
  split
  · rename_i heq
    injection heq with h1 h2
    exact absurd h1 ha1
  · rename_i heq
    injection heq with h1 h2
    exact absurd h1 ha2
  · rfl

theorem jsParseFloat_all_digits (s : JStr) (hne : s ≠ []) (hd : ∀ c ∈ s, c.isDigit = true) :
    jsParseFloat s = JSNum.num (digitsToNat s) := by
  obtain ⟨a, t, rfl⟩ := List.exists_cons_of_ne_nil hne
  have ha := hd a (List.mem_cons_self a t)
  have h1 : (a :: t).dropWhile jsIsWhitespace = a :: t :=
    dropWhile_eq_self_of_head _ _ (fun c hc => by
      rw [List.head?_cons, Option.some.injEq] at hc
      subst hc
      exact isDigit_not_ws a ha)
  have h2 : takeSign (a :: t) = (1, a :: t) := takeSign_cons_of_digit a t ha
  have h3 : (a :: t).takeWhile Char.isDigit = a :: t := takeWhile_all _ _ hd
  simp only [jsParseFloat, h1, h2, h3, List.drop_length]
  simp [parseExponent, digitsToNat]

theorem jsParseFloat_digits_dot (xs ys : JStr) (hxs : xs ≠ [])
    (hdx : ∀ c ∈ xs, c.isDigit = true) (hdy : ∀ c ∈ ys, c.isDigit = true) :
    jsParseFloat (xs ++ '.' :: ys)
      = JSNum.num (digitsToNat xs + digitsToNat ys / 10 ^ ys.length) := by
  obtain ⟨a, t, rfl⟩ := List.exists_cons_of_ne_nil hxs
  have ha := hdx a (List.mem_cons_self a t)
  have h1 : ((a :: t) ++ '.' :: ys).dropWhile jsIsWhitespace = (a :: t) ++ '.' :: ys :=
    dropWhile_eq_self_of_head _ _ (fun c hc => by
      rw [List.cons_append, List.head?_cons, Option.some.injEq] at hc
      subst hc
      exact isDigit_not_ws a ha)
  have h2 : takeSign ((a :: t) ++ '.' :: ys) = (1, (a :: t) ++ '.' :: ys) := by
    rw [List.cons_append]
    exact takeSign_cons_of_digit a _ ha
  have h3 : ((a :: t) ++ '.' :: ys).takeWhile Char.isDigit = a :: t :=
    takeWhile_append_stop _ _ _ _ hdx (by decide)
  have h4 : ((a :: t) ++ '.' :: ys).drop (a :: t).length = '.' :: ys :=
    List.drop_left _ _
  have h5 : ys.takeWhile Char.isDigit = ys := takeWhile_all _ _ hdy
  simp only [jsParseFloat, h1, h2, h3, h4, h5, List.drop_length]
  simp [parseExponent]

theorem jsParseFloat_decChars (m k : Nat) :
    jsParseFloat (decChars m k) = JSNum.num ((m : ℚ) / 10 ^ k) := by
  by_cases hk : k = 0
  · subst hk
    unfold decChars
    rw [if_pos rfl,
      jsParseFloat_all_digits _ (natToChars_ne_nil m) (natToChars_all_digits m),
      digitsToNat_natToChars]
    norm_num
  · have hmod : m % 10 ^ k < 10 ^ k := Nat.mod_lt _ (pow_pos (by norm_num) k)
    have hlen : (natToChars (m % 10 ^ k)).length ≤ k :=
      natToChars_length_le _ _ (Nat.one_le_iff_ne_zero.2 hk) hmod
    have hfracdig : ∀ c ∈ List.replicate (k - (natToChars (m % 10 ^ k)).length) '0'
        ++ natToChars (m % 10 ^ k), c.isDigit = true := by
      intro c hc
      rcases List.mem_append.1 hc with h | h
      · rw [List.eq_of_mem_replicate h]; decide
      · exact natToChars_all_digits _ c h
    have hfraclen : (List.replicate (k - (natToChars (m % 10 ^ k)).length) '0'
        ++ natToChars (m % 10 ^ k)).length = k := by
      rw [List.length_append, List.length_replicate]
      omega
    have hfracval : digitsToNat (List.replicate (k - (natToChars (m % 10 ^ k)).length) '0'
        ++ natToChars (m % 10 ^ k)) = m % 10 ^ k := by
      rw [digitsToNat_replicate_zero, digitsToNat_natToChars]
    unfold decChars
    rw [if_neg hk,
      jsParseFloat_digits_dot _ _ (natToChars_ne_nil _) (natToChars_all_digits _) hfracdig,
      digitsToNat_natToChars, hfracval, hfraclen]
    congr 1
    have hcast : ((10 : ℚ)) ^ k * ((m / 10 ^ k : ℕ) : ℚ) + ((m % 10 ^ k : ℕ) : ℚ) = (m : ℚ) := by
      exact_mod_cast congrArg (fun n : ℕ => (n : ℚ)) (Nat.div_add_mod m (10 ^ k))
    have h10 : ((10 : ℚ)) ^ k ≠ 0 := by positivity
    field_simp
    linarith [hcast]

theorem natToChars_head_ne_zero (n : Nat) (hn : n ≠ 0) :
    ∀ c, (natToChars n).head? = some c → c ≠ '0' := by
  intro c hc
  have hnil : Nat.digits 10 n ≠ [] := Nat.digits_ne_nil_iff_ne_zero.2 hn
  unfold natToChars at hc
  rw [if_neg hn] at hc
  rw [List.head?_reverse, List.getLast?_map] at hc
  rw [List.getLast?_eq_getLast _ hnil] at hc
  have hc2 : digitChar ((Nat.digits 10 n).getLast hnil) = c := by simpa using hc
  subst hc2
  have hlt : (Nat.digits 10 n).getLast hnil < 10 :=
    Nat.digits_lt_base (by norm_num) (List.getLast_mem hnil)
  have hne := Nat.getLast_digit_ne_zero 10 hn
  intro heq
  have := congrArg Char.toNat heq
  rw [digitChar_toNat _ hlt] at this
  simp only [show ('0').toNat = 48 from rfl] at this
  omega

theorem jsParseInt_natToChars (n : Nat) : jsParseInt (natToChars n) = JSNum.num n := by
  by_cases hn : n = 0
  · subst hn
    with_unfolding_all decide
  · obtain ⟨a, t, hat⟩ : ∃ a t, natToChars n = a :: t := by
      cases h : natToChars n with
      | nil => exact absurd h (natToChars_ne_nil n)
      | cons a t => exact ⟨a, t, rfl⟩
    have hd : ∀ c ∈ a :: t, c.isDigit = true := hat ▸ natToChars_all_digits n
    have ha : a.isDigit = true := hd a (List.mem_cons_self a t)
    have ha0 : a ≠ '0' :=
      natToChars_head_ne_zero n hn a (by rw [hat]; rfl)
    have h1 : (a :: t).dropWhile jsIsWhitespace = a :: t :=
      dropWhile_eq_self_of_head _ _ (fun c hc => by
        rw [List.head?_cons, Option.some.injEq] at hc
        subst hc
        exact isDigit_not_ws a ha)
    have h3 : (a :: t).takeWhile Char.isDigit = a :: t := takeWhile_all _ _ hd
    have hval : digitsToNat (a :: t) = n := by rw [← hat, digitsToNat_natToChars]
    rw [hat]
    simp only [jsParseInt, h1, takeSign_cons_of_digit a t ha]
    split
    · rename_i rest heq
      injection heq with e1 e2
      exact absurd e1 ha0
    · rename_i rest heq
      injection heq with e1 e2
      exact absurd e1 ha0
    · rw [h3, if_neg (by simp), hval]
      norm_num

theorem decChars_zero (m : Nat) : decChars m 0 = natToChars m := by
  unfold decChars
  rw [if_pos rfl]

theorem factorCount_one (p : Nat) : factorCount p 1 = 0 := by
  have h : ¬(2 ≤ p ∧ 0 < 1 ∧ 1 % p = 0) := by
    rintro ⟨h2, _, hmod⟩
    have hdvd : p ∣ 1 := Nat.dvd_of_mod_eq_zero hmod
    have := Nat.le_of_dvd (by norm_num) hdvd
    omega
  show factorCountAux 1 p 1 = 0
  unfold factorCountAux
  rw [if_neg h]

theorem ratToChars_nonneg (q : ℚ) (h0 : 0 ≤ q) :
    ratToChars q = decChars (q * 10 ^ decExp q).num.natAbs (decExp q) := by
  unfold ratToChars
  rw [if_neg (not_lt.2 h0)]

/-- A finite decimal: scaling by `10 ^ decExp q` clears the denominator.
This is the exact-rational analogue of being a value JavaScript prints in
plain decimal notation and re-reads exactly. -/
def IsFiniteDecimal (q : ℚ) : Prop := (q * 10 ^ decExp q).den = 1

theorem decValue_eq (q : ℚ) (h0 : 0 ≤ q) (h1 : IsFiniteDecimal q) :
    (((q * 10 ^ decExp q).num.natAbs : ℕ) : ℚ) / 10 ^ decExp q = q := by
  have hnn : (0 : ℚ) ≤ q * 10 ^ decExp q := by positivity
  have hge : 0 ≤ (q * 10 ^ decExp q).num := Rat.num_nonneg.2 hnn
  have habs : ((q * 10 ^ decExp q).num.natAbs : ℤ) = (q * 10 ^ decExp q).num :=
    Int.natAbs_of_nonneg hge
  have hnum : ((q * 10 ^ decExp q).num : ℚ) = q * 10 ^ decExp q :=
    Rat.coe_int_num_of_den_eq_one h1
  have hcast : (((q * 10 ^ decExp q).num.natAbs : ℕ) : ℚ) = q * 10 ^ decExp q := by
    rw [Int.cast_natAbs, abs_of_nonneg hge, hnum]
  rw [hcast]
  have h10 : ((10 : ℚ)) ^ decExp q ≠ 0 := by positivity
  field_simp

/-- `parseFloat` recovers every non-negative finite decimal from its printed
form exactly. -/
theorem jsParseFloat_ratToChars (q : ℚ) (h0 : 0 ≤ q) (h1 : IsFiniteDecimal q) :
    jsParseFloat (ratToChars q) = JSNum.num q := by
  rw [ratToChars_nonneg q h0, jsParseFloat_decChars, decValue_eq q h0 h1]

theorem decExp_of_den_one (q : ℚ) (h1 : q.den = 1) : decExp q = 0 := by
  rw [decExp, h1, factorCount_one, factorCount_one]
  simp

/-- `parseInt` recovers every non-negative whole number from its printed
form exactly. -/
theorem jsParseInt_ratToChars (q : ℚ) (h0 : 0 ≤ q) (h1 : q.den = 1) :
    jsParseInt (ratToChars q) = JSNum.num q := by
  rw [ratToChars_nonneg q h0, decExp_of_den_one q h1]
  rw [show q * 10 ^ (0 : ℕ) = q from by norm_num]
  rw [decChars_zero, jsParseInt_natToChars]
  congr 1
  have hge : 0 ≤ q.num := Rat.num_nonneg.2 h0
  have hnum : (q.num : ℚ) = q := Rat.coe_int_num_of_den_eq_one h1
  rw [Int.cast_natAbs, abs_of_nonneg hge, hnum]

theorem mem_of_head? {l : JStr} {c : Char} (h : l.head? = some c) : c ∈ l := by
  cases l with
  | nil => exact Option.noConfusion h
  | cons a t =>
      rw [List.head?_cons, Option.some.injEq] at h
      exact h ▸ List.mem_cons_self a t

theorem mem_of_getLast? {l : JStr} {c : Char} (h : l.getLast? = some c) : c ∈ l := by
  rcases List.mem_getLast?_eq_getLast (show c ∈ l.getLast? from h) with ⟨hne, rfl⟩
  exact List.getLast_mem hne

theorem decChars_chars (m k : Nat) : ∀ c ∈ decChars m k, c.isDigit = true ∨ c = '.' := by
  unfold decChars
  split
  · intro c hc
    exact Or.inl (natToChars_all_digits m c hc)
  · intro c hc
    rcases List.mem_append.1 hc with h | h
    · exact Or.inl (natToChars_all_digits _ c h)
    · rcases List.mem_cons.1 h with rfl | h2
      · exact Or.inr rfl
      · rcases List.mem_append.1 h2 with h3 | h3
        · rw [List.eq_of_mem_replicate h3]
          exact Or.inl (by decide)
        · exact Or.inl (natToChars_all_digits _ c h3)

theorem decChars_ne_nil (m k : Nat) : decChars m k ≠ [] := by
  unfold decChars
  split
  · exact natToChars_ne_nil m
  · exact fun h => natToChars_ne_nil (m / 10 ^ k) (List.append_eq_nil.1 h).1

theorem numChar_props (c : Char) (h : c.isDigit = true ∨ c = '.') :
    jsIsWhitespace c = false ∧ c ≠ '"' ∧ c ≠ ',' ∧ c ≠ '\n' := by
  rcases h with h | rfl
  · refine ⟨isDigit_not_ws c h, ?_, ?_, ?_⟩
    · intro heq; rw [heq] at h; exact absurd h (by decide)
    · intro heq; rw [heq] at h; exact absurd h (by decide)
    · intro heq; rw [heq] at h; exact absurd h (by decide)
  · exact ⟨by decide, by decide, by decide, by decide⟩

theorem ratToChars_chars (q : ℚ) (h0 : 0 ≤ q) :
    ∀ c ∈ ratToChars q, c.isDigit = true ∨ c = '.' := by
  rw [ratToChars_nonneg q h0]
  exact decChars_chars _ _

theorem ratToChars_ne_nil (q : ℚ) (h0 : 0 ≤ q) : ratToChars q ≠ [] := by
  rw [ratToChars_nonneg q h0]
  exact decChars_ne_nil _ _

theorem clean_ratToChars (q : ℚ) (h0 : 0 ≤ q) :
    stripQuotes (jsTrim (ratToChars q)) = ratToChars q := by
  apply clean_unquoted
  · intro c hc
    have hp := numChar_props c (ratToChars_chars q h0 c (mem_of_head? hc))
    exact ⟨hp.1, hp.2.1⟩
  · intro c hc
    have hp := numChar_props c (ratToChars_chars q h0 c (mem_of_getLast? hc))
    exact ⟨hp.1, hp.2.1⟩

theorem ratToChars_no_comma (q : ℚ) (h0 : 0 ≤ q) : ',' ∉ ratToChars q := by
  intro h
  exact absurd rfl (numChar_props ',' (ratToChars_chars q h0 ',' h)).2.2.1

theorem ratToChars_no_newline (q : ℚ) (h0 : 0 ≤ q) : '\n' ∉ ratToChars q := by
  intro h
  exact absurd rfl (numChar_props '\n' (ratToChars_chars q h0 '\n' h)).2.2.2

theorem quoteCell_no_comma (s : JStr) (hs : ',' ∉ s) : ',' ∉ quoteCell s := by
  intro h
  unfold quoteCell at h
  rcases List.mem_cons.1 h with h1 | h1
  · exact absurd h1 (by decide)
  · rcases List.mem_append.1 h1 with h2 | h2
    · exact hs h2
    · rw [List.mem_singleton] at h2
      exact absurd h2 (by decide)

theorem quoteCell_no_newline (s : JStr) (hs : '\n' ∉ s) : '\n' ∉ quoteCell s := by
  intro h
  unfold quoteCell at h
  rcases List.mem_cons.1 h with h1 | h1
  · exact absurd h1 (by decide)
  · rcases List.mem_append.1 h1 with h2 | h2
    · exact hs h2
    · rw [List.mem_singleton] at h2
      exact absurd h2 (by decide)

/-- One encoded row of the sample CSV format (`r.join(',')` over the
seven-entry row array, string fields quoted, numbers printed bare;
`generateSampleCSV` lines 85–88, parameterised over the data). -/
def encodeRow (d : HistoricalData) : JStr :=
  joinChar ',' [quoteCell d.partNumber, quoteCell d.country, ratToChars d.usdPrice,
    ratToChars d.quantity, ratToChars d.leadTimeDays, quoteCell d.vendor, d.date]

/-- The sample CSV text for a record list
(`[headers.join(','), ...rows.map(r => r.join(','))].join('\n')`). -/
def encodeSampleCSV (data : List HistoricalData) : JStr :=
  joinChar '\n' (sampleCSVHeader :: data.map encodeRow)

/-! ## C2: sample-CSV round-trip -/

/-- A string field the simple comma/newline splitter and quote stripper can
carry through unchanged. -/
def GoodString (s : JStr) : Prop := ',' ∉ s ∧ '"' ∉ s ∧ '\n' ∉ s

instance (s : JStr) : Decidable (GoodString s) := by
  unfold GoodString
  infer_instance

/-- The hypotheses under which one historical record survives the sample-CSV
round trip: delimiter-free string fields, a non-empty part number (the
`|| 'partnumber' || 'sku'` alias chain turns an empty part number into
`undefined`), a non-empty date with no surrounding whitespace (the date cell
is written unquoted, so it is trimmed on decode and an empty date falls back
to the current timestamp), whole-number quantity and lead time (they are
re-read with `parseInt`), and a non-negative finite-decimal price (the
exact-rational form of a value JavaScript prints in plain decimal). -/
def GoodRecord (d : HistoricalData) : Prop :=
  GoodString d.partNumber ∧ GoodString d.country ∧ GoodString d.vendor ∧ GoodString d.date
  ∧ d.partNumber ≠ []
  ∧ d.date ≠ []
  ∧ d.date.head?.all (fun c => !jsIsWhitespace c) = true
  ∧ d.date.getLast?.all (fun c => !jsIsWhitespace c) = true
  ∧ 0 ≤ d.usdPrice ∧ IsFiniteDecimal d.usdPrice
  ∧ 0 ≤ d.quantity ∧ d.quantity.den = 1
  ∧ 0 ≤ d.leadTimeDays ∧ d.leadTimeDays.den = 1

instance (d : HistoricalData) : Decidable (GoodRecord d) := by
  unfold GoodRecord IsFiniteDecimal
  infer_instance

/-- The parsed record the round trip is expected to produce: the same seven
data values, wrapped in the parser's result shapes. -/
def expectedParsed (d : HistoricalData) : ParsedHistorical :=
  { partNumber := some d.partNumber
    country := some d.country
    usdPrice := JSNum.num d.usdPrice
    quantity := JSNum.num d.quantity
    leadTimeDays := JSNum.num d.leadTimeDays
    vendor := some d.vendor
    date := d.date }

theorem option_all_spec (o : Option Char) (p : Char → Bool) (h : o.all p = true) :
    ∀ c, o = some c → p c = true := by
  intro c hc
  subst hc
  simpa using h

theorem jsOrStr_some_ne (s : JStr) (b : Option JStr) (h : s ≠ []) :
    jsOrStr (some s) b = some s := by
  simp [jsOrStr, h]

theorem numFieldFloat_some_ne (s : JStr) (h : s ≠ []) :
    numFieldFloat (some s) = jsParseFloat s := by
  simp [numFieldFloat, h]

theorem numFieldInt_some_ne (s : JStr) (h : s ≠ []) :
    numFieldInt (some s) = jsParseInt s := by
  simp [numFieldInt, h]

theorem mem_joinChar_of_mem {c x : Char} (ls : List JStr) (l : JStr)
    (hl : l ∈ ls) (hx : x ∈ l) : x ∈ joinChar c ls := by
  induction ls with
  | nil => exact absurd hl (List.not_mem_nil l)
  | cons s rest ih =>
      cases rest with
      | nil =>
          rcases List.mem_cons.1 hl with rfl | h2
          · exact hx
          · exact absurd h2 (List.not_mem_nil l)
      | cons s2 rest2 =>
          rcases List.mem_cons.1 hl with rfl | h2
          · exact List.mem_append.2 (Or.inl hx)
          · exact List.mem_append.2 (Or.inr (List.mem_cons_of_mem _ (ih h2)))

theorem encodeRow_no_newline (d : HistoricalData) (h : GoodRecord d) :
    '\n' ∉ encodeRow d := by
  obtain ⟨hpn, hco, hve, hda, -, -, -, -, hp0, -, hq0, -, hl0, -⟩ := h
  intro hmem
  unfold encodeRow at hmem
  rcases mem_joinChar _ hmem with h1 | ⟨l, hl, hxl⟩
  · exact absurd h1 (by decide)
  · simp only [List.mem_cons, List.not_mem_nil, or_false] at hl
    rcases hl with rfl|rfl|rfl|rfl|rfl|rfl|rfl
    · exact quoteCell_no_newline _ hpn.2.2 hxl
    · exact quoteCell_no_newline _ hco.2.2 hxl
    · exact ratToChars_no_newline _ hp0 hxl
    · exact ratToChars_no_newline _ hq0 hxl
    · exact ratToChars_no_newline _ hl0 hxl
    · exact quoteCell_no_newline _ hve.2.2 hxl
    · exact hda.2.2 hxl

theorem encodeRow_trim_ne_nil (d : HistoricalData) : jsTrim (encodeRow d) ≠ [] := by
  apply jsTrim_ne_nil _ '"'
  · exact mem_joinChar_of_mem _ (quoteCell d.partNumber)
      (List.mem_cons_self _ _) (List.mem_cons_self '"' _)
  · decide

theorem parseCSVRow_encodeRow (now : JStr) (d : HistoricalData) (h : GoodRecord d) :
    parseCSVRow now
      ((splitOnChar ',' sampleCSVHeader).map (fun h => stripParens (jsToLower (jsTrim h))))
      (encodeRow d)
      = expectedParsed d := by
  obtain ⟨hpn, hco, hve, hda, hpnne, hdane, hdah, hdal, hp0, hpfd, hq0, hqint, hl0, hlint⟩ := h
  have hcells : splitOnChar ',' (encodeRow d)
      = [quoteCell d.partNumber, quoteCell d.country, ratToChars d.usdPrice,
         ratToChars d.quantity, ratToChars d.leadTimeDays, quoteCell d.vendor, d.date] := by
    unfold encodeRow
    refine splitOnChar_joinChar ',' _ ?_ (by simp)
    intro l hl
    simp only [List.mem_cons, List.not_mem_nil, or_false] at hl
    rcases hl with rfl|rfl|rfl|rfl|rfl|rfl|rfl
    · exact quoteCell_no_comma _ hpn.1
    · exact quoteCell_no_comma _ hco.1
    · exact ratToChars_no_comma _ hp0
    · exact ratToChars_no_comma _ hq0
    · exact ratToChars_no_comma _ hl0
    · exact quoteCell_no_comma _ hve.1
    · exact hda.1
  have hlc : lineCells (encodeRow d)
      = [d.partNumber, d.country, ratToChars d.usdPrice, ratToChars d.quantity,
         ratToChars d.leadTimeDays, d.vendor, d.date] := by
    unfold lineCells
    rw [hcells]
    simp only [List.map_cons, List.map_nil]
    rw [clean_quoteCell, clean_quoteCell, clean_quoteCell,
      clean_ratToChars _ hp0, clean_ratToChars _ hq0, clean_ratToChars _ hl0,
      clean_unquoted d.date
        (fun c hc => ⟨by simpa using option_all_spec _ _ hdah c hc,
          fun heq => hda.2.1 (heq ▸ mem_of_head? hc)⟩)
        (fun c hc => ⟨by simpa using option_all_spec _ _ hdal c hc,
          fun heq => hda.2.1 (heq ▸ mem_of_getLast? hc)⟩)]
  unfold parseCSVRow
  rw [hlc]
  unfold expectedParsed
  simp only [ParsedHistorical.mk.injEq]
  refine ⟨?_, ?_, ?_, ?_, ?_, ?_, ?_⟩
  · show jsOrStr (some d.partNumber) _ = some d.partNumber
    exact jsOrStr_some_ne _ _ hpnne
  · rfl
  · show numFieldFloat (jsOrStr (some (ratToChars d.usdPrice)) _) = JSNum.num d.usdPrice
    rw [jsOrStr_some_ne _ _ (ratToChars_ne_nil _ hp0),
      numFieldFloat_some_ne _ (ratToChars_ne_nil _ hp0),
      jsParseFloat_ratToChars _ hp0 hpfd]
  · show numFieldInt (jsOrStr (some (ratToChars d.quantity)) _) = JSNum.num d.quantity
    rw [jsOrStr_some_ne _ _ (ratToChars_ne_nil _ hq0),
      numFieldInt_some_ne _ (ratToChars_ne_nil _ hq0),
      jsParseInt_ratToChars _ hq0 hqint]
  · show numFieldInt (jsOrStr (some (ratToChars d.leadTimeDays)) _) = JSNum.num d.leadTimeDays
    rw [jsOrStr_some_ne _ _ (ratToChars_ne_nil _ hl0),
      numFieldInt_some_ne _ (ratToChars_ne_nil _ hl0),
      jsParseInt_ratToChars _ hl0 hlint]
  · rfl
  · show (jsOrStr (some d.date) (some now)).getD now = d.date
    rw [jsOrStr_some_ne _ _ hdane]
    rfl

/-- C2 (amended): encoding records in the sample-CSV format and decoding
with `parseCSV` reproduces the partNumber, country, vendor, date, usdPrice,
quantity and leadTimeDays values in order (ids are not compared), for every
record list whose string fields are free of commas, double quotes and
newlines and which in addition has a non-empty part number, a non-empty
date without surrounding whitespace, whole-number quantity and lead time,
and a non-negative finite-decimal price. -/
theorem parseCSV_encode_roundtrip (now : JStr) (data : List HistoricalData)
    (h : ∀ d ∈ data, GoodRecord d) :
    parseCSV now (encodeSampleCSV data) = data.map expectedParsed := by
  cases data with
  | nil => rfl
  | cons d0 rest =>
      have hlines : splitOnChar '\n' (encodeSampleCSV (d0 :: rest))
          = sampleCSVHeader :: encodeRow d0 :: rest.map encodeRow := by
        unfold encodeSampleCSV
        refine splitOnChar_joinChar '\n' _ ?_ (by simp)
        intro l hl
        rcases List.mem_cons.1 hl with rfl | hl2
        · decide
        · rcases List.mem_map.1 hl2 with ⟨d, hd, rfl⟩
          exact encodeRow_no_newline d (h d hd)
      simp only [parseCSV, hlines]
      have hbody : bodyLines (sampleCSVHeader :: encodeRow d0 :: rest.map encodeRow)
          = encodeRow d0 :: rest.map encodeRow := by
        unfold bodyLines
        rw [List.tail_cons]
        apply List.filter_eq_self.2
        intro a ha
        have hform : ∃ d, a = encodeRow d := by
          rcases List.mem_cons.1 ha with rfl | h2
          · exact ⟨d0, rfl⟩
          · rcases List.mem_map.1 h2 with ⟨d, hd, rfl⟩
            exact ⟨d, rfl⟩
        rcases hform with ⟨d, rfl⟩
        simpa using encodeRow_trim_ne_nil d
      rw [hbody,
        show encodeRow d0 :: rest.map encodeRow = (d0 :: rest).map encodeRow from rfl,
        List.map_map]
      apply List.map_congr_left
      intro d hd
      exact parseCSVRow_encodeRow now d (h d hd)

/-- A record exercising the round trip, with a two-decimal price. -/
def rtRec : HistoricalData :=
  { id := "id-1".data, partNumber := "SKU-1001".data, country := "USA".data,
    usdPrice := 2469 / 20, quantity := 150, leadTimeDays := 14,
    vendor := "GlobalLogistics Inc".data, date := "2024-01-01".data }

/-- Witness for `parseCSV_encode_roundtrip` on a one-record list with
price 123.45. -/
theorem parseCSV_encode_roundtrip_witness :
    parseCSV "T".data (encodeSampleCSV [rtRec]) = [rtRec].map expectedParsed :=
  parseCSV_encode_roundtrip "T".data [rtRec] (by with_unfolding_all decide)

/-- A record whose string fields are delimiter-free, yet whose empty part
number defeats the round trip. -/
def emptyPartRec : HistoricalData :=
  { id := [], partNumber := [], country := "US".data, usdPrice := 1,
    quantity := 2, leadTimeDays := 3, vendor := "V".data, date := "2024-01-01".data }

/-- Counterexample to C2 as stated: for a record with an empty part number —
whose string fields contain no commas, quotes or newlines — the decoder's
`obj['part number'] || obj['partnumber'] || obj['sku']` chain treats the
empty cell as falsy and yields `undefined`, so the part number does not
round-trip. -/
theorem parseCSV_roundtrip_empty_part :
    (parseCSV "T".data (encodeSampleCSV [emptyPartRec])).map (·.partNumber) = [none]
    ∧ (none : Option JStr) ≠ some emptyPartRec.partNumber := by
  with_unfolding_all decide

/-! ## C5: the numeric-field parse policy across all three decoders -/

/-- A cell text the one-row CSV constructions can carry: free of the comma
and newline delimiters. -/
def CellSafe (s : JStr) : Prop := ',' ∉ s ∧ '\n' ∉ s

instance (s : JStr) : Decidable (CellSafe s) := by
  unfold CellSafe
  infer_instance

/-- The lenient numeric policy for a present cell, as the spec words it:
after trimming and one layer of quote stripping, an empty text yields 0 and
any other text is handed to `parseFloat`. -/
def numPolicyFloat (cell : JStr) : JSNum :=
  if stripQuotes (jsTrim cell) = [] then JSNum.num 0
  else jsParseFloat (stripQuotes (jsTrim cell))

/-- The same policy for integer fields, handed to `parseInt`. -/
def numPolicyInt (cell : JStr) : JSNum :=
  if stripQuotes (jsTrim cell) = [] then JSNum.num 0
  else jsParseInt (stripQuotes (jsTrim cell))

theorem numFieldFloat_orNone (s : JStr) :
    numFieldFloat (jsOrStr (some (stripQuotes (jsTrim s))) none) = numPolicyFloat s := by
  by_cases h : stripQuotes (jsTrim s) = [] <;>
    simp [jsOrStr, numFieldFloat, numPolicyFloat, h]

theorem numFieldInt_orNone (s : JStr) :
    numFieldInt (jsOrStr (some (stripQuotes (jsTrim s))) none) = numPolicyInt s := by
  by_cases h : stripQuotes (jsTrim s) = [] <;>
    simp [jsOrStr, numFieldInt, numPolicyInt, h]

theorem numFieldFloat_some_cell (s : JStr) :
    numFieldFloat (some (stripQuotes (jsTrim s))) = numPolicyFloat s := by
  by_cases h : stripQuotes (jsTrim s) = [] <;>
    simp [numFieldFloat, numPolicyFloat, h]

theorem numFieldInt_some_cell (s : JStr) :
    numFieldInt (some (stripQuotes (jsTrim s))) = numPolicyInt s := by
  by_cases h : stripQuotes (jsTrim s) = [] <;>
    simp [numFieldInt, numPolicyInt, h]

theorem splitOneRow (header row : JStr) (hh : '\n' ∉ header) (hr : '\n' ∉ row) :
    splitOnChar '\n' (header ++ '\n' :: row) = [header, row] := by
  rw [splitOnChar_append_sep _ _ _ hh, splitOnChar_no_sep _ _ hr]

theorem joinComma_no_newline (cells : List JStr) (h : ∀ l ∈ cells, '\n' ∉ l) :
    '\n' ∉ joinChar ',' cells := by
  intro hmem
  rcases mem_joinChar _ hmem with h1 | ⟨l, hl, hxl⟩
  · exact absurd h1 (by decide)
  · exact h l hl hxl

theorem bodyLines_oneRow (header row : JStr) (c : Char) (hc : c ∈ row)
    (hcw : jsIsWhitespace c = false) : bodyLines [header, row] = [row] := by
  simp [bodyLines, List.filter, jsTrim_ne_nil row c hc hcw]

/-- The forecast-CSV header line. -/
def forecastHeader : JStr :=
  "Part Number,Vendor,Country,Date,Predicted Price,Predicted Lead Time,Confidence Upper,Confidence Lower".data

theorem negRow_policy (s t : JStr) (hs : CellSafe s) (ht : CellSafe t) :
    parseNegotiationCSV (negHeader ++ '\n' :: joinChar ',' ["A".data, "V".data, "C".data, s, t])
      = [{ partNumber := some "A".data
           vendor := some "V".data
           country := some "C".data
           proposedPrice := numPolicyFloat s
           proposedLeadTime := numPolicyInt t }] := by
  have hmemA : 'A' ∈ joinChar ',' ["A".data, "V".data, "C".data, s, t] :=
    mem_joinChar_of_mem _ "A".data (List.mem_cons_self _ _) (by decide)
  have hnorow : '\n' ∉ joinChar ',' ["A".data, "V".data, "C".data, s, t] := by
    refine joinComma_no_newline _ ?_
    intro l hl
    simp only [List.mem_cons, List.not_mem_nil, or_false] at hl
    rcases hl with rfl | rfl | rfl | rfl | rfl
    · decide
    · decide
    · decide
    · exact hs.2
    · exact ht.2
  have hsplit := splitOneRow negHeader _ (by decide) hnorow
  have hcells : splitOnChar ',' (joinChar ',' ["A".data, "V".data, "C".data, s, t])
      = ["A".data, "V".data, "C".data, s, t] := by
    refine splitOnChar_joinChar ',' _ ?_ (by simp)
    intro l hl
    simp only [List.mem_cons, List.not_mem_nil, or_false] at hl
    rcases hl with rfl | rfl | rfl | rfl | rfl
    · decide
    · decide
    · decide
    · exact hs.1
    · exact ht.1
  have hbody := bodyLines_oneRow negHeader _ 'A' hmemA (by decide)
  have hlc : lineCells (joinChar ',' ["A".data, "V".data, "C".data, s, t])
      = ["A".data, "V".data, "C".data, stripQuotes (jsTrim s), stripQuotes (jsTrim t)] := by
    unfold lineCells
    rw [hcells]
    simp only [List.map_cons, List.map_nil]
    rw [show stripQuotes (jsTrim "A".data) = "A".data from by decide,
      show stripQuotes (jsTrim "V".data) = "V".data from by decide,
      show stripQuotes (jsTrim "C".data) = "C".data from by decide]
  simp only [parseNegotiationCSV, hsplit]
  rw [hbody]
  simp only [List.map_cons, List.map_nil, hlc]
  simp only [List.cons.injEq, and_true, ParsedNegotiatedRate.mk.injEq]
  refine ⟨?_, ?_, ?_, ?_, ?_⟩
  · rfl
  · rfl
  · rfl
  · have h4a : rowObj (List.map (fun h => jsToLower (jsTrim h)) (splitOnChar ',' negHeader))
        [['A'], ['V'], ['C'], stripQuotes (jsTrim s), stripQuotes (jsTrim t)]
        "proposed price".data = some (stripQuotes (jsTrim s)) := rfl
    have h4b : rowObj (List.map (fun h => jsToLower (jsTrim h)) (splitOnChar ',' negHeader))
        [['A'], ['V'], ['C'], stripQuotes (jsTrim s), stripQuotes (jsTrim t)]
        "price".data = none := rfl
    rw [h4a, h4b, numFieldFloat_orNone]
  · have h5a : rowObj (List.map (fun h => jsToLower (jsTrim h)) (splitOnChar ',' negHeader))
        [['A'], ['V'], ['C'], stripQuotes (jsTrim s), stripQuotes (jsTrim t)]
        "proposed lead time".data = some (stripQuotes (jsTrim t)) := rfl
    have h5b : rowObj (List.map (fun h => jsToLower (jsTrim h)) (splitOnChar ',' negHeader))
        [['A'], ['V'], ['C'], stripQuotes (jsTrim s), stripQuotes (jsTrim t)]
        "lead time".data = none := rfl
    rw [h5a, h5b, numFieldInt_orNone]

theorem csvRow_policy (now s t u : JStr) (hs : CellSafe s) (ht : CellSafe t) (hu : CellSafe u) :
    parseCSV now (sampleCSVHeader ++ '\n' ::
        joinChar ',' ["A".data, "US".data, s, t, u, "V".data, "2024-01-01".data])
      = [{ partNumber := some "A".data
           country := some "US".data
           usdPrice := numPolicyFloat s
           quantity := numPolicyInt t
           leadTimeDays := numPolicyInt u
           vendor := some "V".data
           date := "2024-01-01".data }] := by
  have hmemA : 'A' ∈ joinChar ',' ["A".data, "US".data, s, t, u, "V".data, "2024-01-01".data] :=
    mem_joinChar_of_mem _ "A".data (List.mem_cons_self _ _) (by decide)
  have hnorow : '\n' ∉ joinChar ',' ["A".data, "US".data, s, t, u, "V".data, "2024-01-01".data] := by
    refine joinComma_no_newline _ ?_
    intro l hl
    simp only [List.mem_cons, List.not_mem_nil, or_false] at hl
    rcases hl with rfl | rfl | rfl | rfl | rfl | rfl | rfl
    · decide
    · decide
    · exact hs.2
    · exact ht.2
    · exact hu.2
    · decide
    · decide
  have hsplit := splitOneRow sampleCSVHeader _ (by decide) hnorow
  have hcells : splitOnChar ','
        (joinChar ',' ["A".data, "US".data, s, t, u, "V".data, "2024-01-01".data])
      = ["A".data, "US".data, s, t, u, "V".data, "2024-01-01".data] := by
    refine splitOnChar_joinChar ',' _ ?_ (by simp)
    intro l hl
    simp only [List.mem_cons, List.not_mem_nil, or_false] at hl
    rcases hl with rfl | rfl | rfl | rfl | rfl | rfl | rfl
    · decide
    · decide
    · exact hs.1
    · exact ht.1
    · exact hu.1
    · decide
    · decide
  have hbody := bodyLines_oneRow sampleCSVHeader _ 'A' hmemA (by decide)
  have hlc : lineCells (joinChar ',' ["A".data, "US".data, s, t, u, "V".data, "2024-01-01".data])
      = ["A".data, "US".data, stripQuotes (jsTrim s), stripQuotes (jsTrim t),
         stripQuotes (jsTrim u), "V".data, "2024-01-01".data] := by
    unfold lineCells
    rw [hcells]
    simp only [List.map_cons, List.map_nil]
    rw [show stripQuotes (jsTrim "A".data) = "A".data from by decide,
      show stripQuotes (jsTrim "US".data) = "US".data from by decide,
      show stripQuotes (jsTrim "V".data) = "V".data from by decide,
      show stripQuotes (jsTrim "2024-01-01".data) = "2024-01-01".data from by decide]
  simp only [parseCSV, hsplit]
  rw [hbody]
  simp only [List.map_cons, List.map_nil]
  unfold parseCSVRow
  rw [hlc]
  simp only [List.cons.injEq, and_true, ParsedHistorical.mk.injEq]
  refine ⟨?_, ?_, ?_, ?_, ?_, ?_, ?_⟩
  · rfl
  · rfl
  · show numFieldFloat (jsOrStr (some (stripQuotes (jsTrim s))) none) = numPolicyFloat s
    exact numFieldFloat_orNone s
  · show numFieldInt (jsOrStr (some (stripQuotes (jsTrim t))) none) = numPolicyInt t
    exact numFieldInt_orNone t
  · show numFieldInt (jsOrStr (some (stripQuotes (jsTrim u))) none) = numPolicyInt u
    exact numFieldInt_orNone u
  · rfl
  · rfl

theorem fcRow_policy (s t u v : JStr) (hs : CellSafe s) (ht : CellSafe t)
    (hu : CellSafe u) (hv : CellSafe v) :
    (parseForecastCSV (forecastHeader ++ '\n' ::
        joinChar ',' ["A".data, "V".data, "US".data, "2024-01-01".data, s, t, u, v])).map
        (fun r => (r.partNumber, r.vendor, r.country,
          r.forecast.map (fun p => (p.date, p.predictedPrice, p.predictedLeadTime,
            p.confidenceIntervalUpper, p.confidenceIntervalLower))))
      = [(some "A".data, some "V".data, some "US".data,
          [(some "2024-01-01".data, numPolicyFloat s, numPolicyInt t,
            numPolicyFloat u, numPolicyFloat v)])] := by
  have hmemA : 'A' ∈ joinChar ',' ["A".data, "V".data, "US".data, "2024-01-01".data, s, t, u, v] :=
    mem_joinChar_of_mem _ "A".data (List.mem_cons_self _ _) (by decide)
  have hnorow : '\n' ∉ joinChar ',' ["A".data, "V".data, "US".data, "2024-01-01".data, s, t, u, v] := by
    refine joinComma_no_newline _ ?_
    intro l hl
    simp only [List.mem_cons, List.not_mem_nil, or_false] at hl
    rcases hl with rfl | rfl | rfl | rfl | rfl | rfl | rfl | rfl
    · decide
    · decide
    · decide
    · decide
    · exact hs.2
    · exact ht.2
    · exact hu.2
    · exact hv.2
  have hsplit := splitOneRow forecastHeader _ (by decide) hnorow
  have hcells : splitOnChar ','
        (joinChar ',' ["A".data, "V".data, "US".data, "2024-01-01".data, s, t, u, v])
      = ["A".data, "V".data, "US".data, "2024-01-01".data, s, t, u, v] := by
    refine splitOnChar_joinChar ',' _ ?_ (by simp)
    intro l hl
    simp only [List.mem_cons, List.not_mem_nil, or_false] at hl
    rcases hl with rfl | rfl | rfl | rfl | rfl | rfl | rfl | rfl
    · decide
    · decide
    · decide
    · decide
    · exact hs.1
    · exact ht.1
    · exact hu.1
    · exact hv.1
  have hbody := bodyLines_oneRow forecastHeader _ 'A' hmemA (by decide)
  have hlc : lineCells (joinChar ',' ["A".data, "V".data, "US".data, "2024-01-01".data, s, t, u, v])
      = ["A".data, "V".data, "US".data, "2024-01-01".data, stripQuotes (jsTrim s),
         stripQuotes (jsTrim t), stripQuotes (jsTrim u), stripQuotes (jsTrim v)] := by
    unfold lineCells
    rw [hcells]
    simp only [List.map_cons, List.map_nil]
    rw [show stripQuotes (jsTrim "A".data) = "A".data from by decide,
      show stripQuotes (jsTrim "V".data) = "V".data from by decide,
      show stripQuotes (jsTrim "US".data) = "US".data from by decide,
      show stripQuotes (jsTrim "2024-01-01".data) = "2024-01-01".data from by decide]
  have hraw : forecastRawPoints (forecastHeader ++ '\n' ::
        joinChar ',' ["A".data, "V".data, "US".data, "2024-01-01".data, s, t, u, v])
      = [{ partNumber := some "A".data
           vendor := some "V".data
           country := some "US".data
           date := some "2024-01-01".data
           predictedPrice := numPolicyFloat s
           predictedLeadTime := numPolicyInt t
           confidenceIntervalUpper := numPolicyFloat u
           confidenceIntervalLower := numPolicyFloat v }] := by
    simp only [forecastRawPoints, hsplit]
    rw [hbody]
    simp only [List.map_cons, List.map_nil]
    rw [hlc]
    simp only [List.cons.injEq, and_true, RawForecastPoint.mk.injEq]
    refine ⟨?_, ?_, ?_, ?_, ?_, ?_, ?_, ?_⟩
    · rfl
    · rfl
    · rfl
    · rfl
    · show numFieldFloat (some (stripQuotes (jsTrim s))) = numPolicyFloat s
      exact numFieldFloat_some_cell s
    · show numFieldInt (some (stripQuotes (jsTrim t))) = numPolicyInt t
      exact numFieldInt_some_cell t
    · show numFieldFloat (some (stripQuotes (jsTrim u))) = numPolicyFloat u
      exact numFieldFloat_some_cell u
    · show numFieldFloat (some (stripQuotes (jsTrim v))) = numPolicyFloat v
      exact numFieldFloat_some_cell v
  unfold parseForecastCSV
  rw [hraw]
  rfl

theorem negRow_missing :
    parseNegotiationCSV (negHeader ++ '\n' :: "A,V,C".data)
      = [{ partNumber := some "A".data
           vendor := some "V".data
           country := some "C".data
           proposedPrice := JSNum.num 0
           proposedLeadTime := JSNum.num 0 }] := rfl

theorem csvRow_missing (now : JStr) :
    parseCSV now (sampleCSVHeader ++ '\n' :: "A,US".data)
      = [{ partNumber := some "A".data
           country := some "US".data
           usdPrice := JSNum.num 0
           quantity := JSNum.num 0
           leadTimeDays := JSNum.num 0
           vendor := none
           date := now }] := rfl

theorem fcRow_missing :
    (parseForecastCSV (forecastHeader ++ '\n' :: "A,V,US".data)).map
        (fun r => (r.partNumber, r.vendor, r.country,
          r.forecast.map (fun p => (p.date, p.predictedPrice, p.predictedLeadTime,
            p.confidenceIntervalUpper, p.confidenceIntervalLower))))
      = [(some "A".data, some "V".data, some "US".data,
          [(none, JSNum.num 0, JSNum.num 0, JSNum.num 0, JSNum.num 0)])] := rfl

/-- C5 (amended): across all three decoders, a present numeric cell parses —
after trimming and one layer of quote stripping — to 0 when its cleaned text
is empty and to JavaScript `parseFloat`/`parseInt` of that text otherwise
(which is `NaN`, not 0, when no numeric prefix exists), while a numeric cell
that is missing from the row yields 0; the decoders are total, so no error
is ever raised.  Stated over one-row inputs of each decoder with arbitrary
comma- and newline-free texts in every numeric cell, and over rows whose
numeric cells are absent. -/
theorem parse_numeric_field_policy (now s t u v : JStr)
    (h : CellSafe s ∧ CellSafe t ∧ CellSafe u ∧ CellSafe v) :
    parseNegotiationCSV (negHeader ++ '\n' :: joinChar ',' ["A".data, "V".data, "C".data, s, t])
      = [{ partNumber := some "A".data
           vendor := some "V".data
           country := some "C".data
           proposedPrice := numPolicyFloat s
           proposedLeadTime := numPolicyInt t }]
    ∧ parseNegotiationCSV (negHeader ++ '\n' :: "A,V,C".data)
      = [{ partNumber := some "A".data
           vendor := some "V".data
           country := some "C".data
           proposedPrice := JSNum.num 0
           proposedLeadTime := JSNum.num 0 }]
    ∧ parseCSV now (sampleCSVHeader ++ '\n' ::
        joinChar ',' ["A".data, "US".data, s, t, u, "V".data, "2024-01-01".data])
      = [{ partNumber := some "A".data
           country := some "US".data
           usdPrice := numPolicyFloat s
           quantity := numPolicyInt t
           leadTimeDays := numPolicyInt u
           vendor := some "V".data
           date := "2024-01-01".data }]
    ∧ parseCSV now (sampleCSVHeader ++ '\n' :: "A,US".data)
      = [{ partNumber := some "A".data
           country := some "US".data
           usdPrice := JSNum.num 0
           quantity := JSNum.num 0
           leadTimeDays := JSNum.num 0
           vendor := none
           date := now }]
    ∧ (parseForecastCSV (forecastHeader ++ '\n' ::
        joinChar ',' ["A".data, "V".data, "US".data, "2024-01-01".data, s, t, u, v])).map
        (fun r => (r.partNumber, r.vendor, r.country,
          r.forecast.map (fun p => (p.date, p.predictedPrice, p.predictedLeadTime,
            p.confidenceIntervalUpper, p.confidenceIntervalLower))))
      = [(some "A".data, some "V".data, some "US".data,
          [(some "2024-01-01".data, numPolicyFloat s, numPolicyInt t,
            numPolicyFloat u, numPolicyFloat v)])]
    ∧ (parseForecastCSV (forecastHeader ++ '\n' :: "A,V,US".data)).map
        (fun r => (r.partNumber, r.vendor, r.country,
          r.forecast.map (fun p => (p.date, p.predictedPrice, p.predictedLeadTime,
            p.confidenceIntervalUpper, p.confidenceIntervalLower))))
      = [(some "A".data, some "V".data, some "US".data,
          [(none, JSNum.num 0, JSNum.num 0, JSNum.num 0, JSNum.num 0)])] :=
  ⟨negRow_policy s t h.1 h.2.1,
   negRow_missing,
   csvRow_policy now s t u h.1 h.2.1 h.2.2.1,
   csvRow_missing now,
   fcRow_policy s t u v h.1 h.2.1 h.2.2.1 h.2.2.2,
   fcRow_missing⟩

/-- Witness for `parse_numeric_field_policy` at the concrete cells
`abc` (unparseable, so the price comes out `NaN`) and `7`. -/
theorem parse_numeric_field_policy_witness :
    parseNegotiationCSV (negHeader ++ '\n' ::
        joinChar ',' ["A".data, "V".data, "C".data, "abc".data, "7".data])
      = [{ partNumber := some "A".data
           vendor := some "V".data
           country := some "C".data
           proposedPrice := numPolicyFloat "abc".data
           proposedLeadTime := numPolicyInt "7".data }] :=
  (parse_numeric_field_policy [] "abc".data "7".data [] [] (by decide)).1
